import Mathlib

/-!
Verification of the warehouse-tracker wage-rate reconciliation engine.

Shallow embedding conventions:
* calendar dates are integer day numbers (`Date := Int`); subtraction of two
  dates is the number of days between them, and the `YYYY-MM-DD` constants used
  in concrete examples are encoded by order-preserving day numbers;
* clock times (`datetime` values) are rational hours on a single time line, so
  "add one day" is `+ 24`;
* currency amounts and markup fractions are rationals (`ℚ`);
* SQL rows are Lean structures mirroring `src/app/models.py`; a table is the
  list of its rows in storage order, and an un-ordered `.first()` returns the
  head of the filtered list;
* `order_by(c.desc()).first()` / `order_by(c.asc()).first()` return the first
  row in table order among those with maximal / minimal `c` (stable sort);
* Python `None`-able columns are `Option` fields, string truthiness
  (`if not x:`) is `strTruthy`, and a raised exception is `Except.error`;
* the SQLAlchemy session is a pair of table states: `committed` (what the
  database holds) and `pending` (the session's view); `commit` publishes the
  pending state, `rollback` discards it.
-/

namespace WarehouseTracker

/- Batteries marks the rational operations irreducible, which blocks `decide`
from evaluating concrete wage computations; restore the default reducibility
for this file. -/
attribute [local semireducible] Rat.add Rat.mul Rat.inv Rat.sub

abbrev Date := Int

/-- Python truthiness of an optional string: `None` and `""` are falsy. -/
def strTruthy : Option String → Bool
  | none => false
  | some s => decide (s ≠ "")

instance {ε α : Type} [DecidableEq ε] [DecidableEq α] : DecidableEq (Except ε α) :=
  fun x y =>
    match x, y with
    | Except.ok a, Except.ok b =>
      if h : a = b then isTrue (by rw [h]) else isFalse (by simp [h])
    | Except.error a, Except.error b =>
      if h : a = b then isTrue (by rw [h]) else isFalse (by simp [h])
    | Except.ok _, Except.error _ => isFalse (by simp)
    | Except.error _, Except.ok _ => isFalse (by simp)

/-- Fresh primary key for an autoincrement column: one more than the largest id in use. -/
def freshId (ids : List Nat) : Nat := ids.foldl max 0 + 1

/-- `order_by(key.desc()).first()`: the first element in list order among those
with maximal key (the fold replaces the candidate only on a strictly larger key). -/
def firstMaxBy {α β : Type} [LinearOrder β] (f : α → β) : List α → Option α
  | [] => none
  | x :: xs => some (xs.foldl (fun b y => if f b < f y then y else b) x)

/-- `order_by(key.asc()).first()`: the first element in list order among those
with minimal key. -/
def firstMinBy {α β : Type} [LinearOrder β] (f : α → β) : List α → Option α
  | [] => none
  | x :: xs => some (xs.foldl (fun b y => if f y < f b then y else b) x)

/-- Replace the first element satisfying `p` (an SQLAlchemy in-place update of
the row returned by `.first()`); all other rows are untouched. -/
def updateFirst {α : Type} (p : α → Bool) (f : α → α) : List α → List α
  | [] => []
  | x :: xs => if p x then f x :: xs else x :: updateFirst p f xs

def firstDedupGo : List String → List String → List String
  | [], _ => []
  | x :: xs, seen => if x ∈ seen then firstDedupGo xs seen else x :: firstDedupGo xs (x :: seen)

/-- Deduplicate keeping the first occurrence of each string, in order. -/
def firstDedup (l : List String) : List String := firstDedupGo l []

/-- Lexicographic comparison on character lists (string `<`). -/
def charListLt : List Char → List Char → Bool
  | [], [] => false
  | [], _ :: _ => true
  | _ :: _, [] => false
  | a :: as, b :: bs =>
    if a.toNat < b.toNat then true
    else if b.toNat < a.toNat then false
    else charListLt as bs

def strLt (s t : String) : Bool := charListLt s.data t.data

def insertSorted (s : String) : List String → List String
  | [] => [s]
  | t :: ts => if strLt s t then s :: t :: ts else t :: insertSorted s ts

/-- Sort strings ascending (pandas `groupby` sorts group keys). -/
def sortStrings (l : List String) : List String := l.foldr insertSorted []

/-- First non-null value of a column (pandas aggregation `'first'`). -/
def firstSome {α : Type} (l : List (Option α)) : Option α := (l.filterMap id).head?

/-- Last non-null value of a column (pandas aggregation `'last'`). -/
def lastSome {α : Type} (l : List (Option α)) : Option α := (l.filterMap id).getLast?

/-! ## Data model (src/app/models.py) -/

/-- `TimesheetEntry` row: one clock-in/clock-out record. -/
structure TimesheetEntry where
  id : Nat
  worker_id : String
  date : Date
  time_in : ℚ
  time_out : ℚ
  lunch_minutes : Int
  agency : Option String
deriving DecidableEq, Repr

/-- `WageRate` row: the pay-rate record for a worker; all payload columns nullable. -/
structure WageRate where
  id : Nat
  worker_id : String
  base_rate : Option ℚ
  role : Option String
  agency : Option String
  markup : Option ℚ
  effective_date : Option Date
deriving DecidableEq, Repr

/-- `Worker` row: identity and activation flag. -/
structure Worker where
  id : Nat
  worker_id : String
  name : Option String
  is_active : Bool
deriving DecidableEq, Repr

/-- `Agency` row. The class is referenced throughout `src/app/utils.py` and
`src/wage_rate_restructure.py` but its declaration is absent from
`src/app/models.py`; fields follow the spec (§3: "Agency: id, unique name")
and the queries `Agency.query.filter_by(name=...)` / `agency.id` in the source. -/
structure Agency where
  id : Nat
  name : String
deriving DecidableEq, Repr

/-- `AgencyMarkup` row. Like `Agency`, the declaration is absent from
`src/app/models.py`; fields follow the spec (§3: "AgencyMarkup: agency_id (FK),
markup (fraction), effective_date") and the queries in the source. -/
structure AgencyMarkup where
  id : Nat
  agency_id : Nat
  markup : ℚ
  effective_date : Date
deriving DecidableEq, Repr

/-- The database: one list of rows per table, in storage order. -/
structure Tables where
  workers : List Worker
  wage_rates : List WageRate
  timesheet_entries : List TimesheetEntry
  agencies : List Agency
  agency_markups : List AgencyMarkup
deriving DecidableEq, Repr

/-- The SQLAlchemy session: committed database state plus the session's pending view. -/
structure Session where
  committed : Tables
  pending : Tables
deriving DecidableEq, Repr

/-- `db.session.commit()`: publish the pending state. -/
def Session.commit (s : Session) : Session := ⟨s.pending, s.pending⟩

/-- `db.session.rollback()`: discard the pending state. -/
def Session.rollback (s : Session) : Session := ⟨s.committed, s.committed⟩

/-! ## Position rate resolver (spec §4.2)

`normalize_position` and `get_base_rate_for_position` are imported from
`app.validation` by `src/app/utils.py`, `src/app/routes/dashboard.py` and
`src/wage_rate_restructure.py`, but `src/app/validation.py` contains no
definition of either. They are modelled from the spec. -/

/-- Canonicalization of one character of a position label: underscores become
spaces, letters are lowercased. -/
def canonChar (c : Char) : Char := if c = '_' then ' ' else c.toLower

/-- Split a character list on spaces (the tail call keeps word pieces open). -/
def splitWordsGo : List Char → List (List Char)
  | [] => [[]]
  | c :: cs =>
    let r := splitWordsGo cs
    if c = ' ' then [] :: r
    else
      match r with
      | [] => [[c]]
      | wd :: ws => (c :: wd) :: ws

/-- Join words back with single spaces. -/
def joinWords : List (List Char) → List Char
  | [] => []
  | [wd] => wd
  | wd :: ws => wd ++ ' ' :: joinWords ws

/-- Lowercase, turn underscores into spaces, and squeeze/trim whitespace. -/
def canonicalize_label (s : String) : String :=
  String.mk (joinWords ((splitWordsGo (s.data.map canonChar)).filter
    (fun wd => decide (wd ≠ []))))

/-- Modelled from the spec: `normalize_position` is missing from the source tree.
Spec §4.2: maps free-text position labels (case/spacing variants) to the fixed
canonical set, and "unrecognized input maps to `general_labor` as the
default/fallback (never fails)". The canonical labels are the strings the rest
of the source uses: "general labor" and "forklift driver". A missing label
(`None`) also falls back to "general labor" (spec: "missing position data is
common and must not block ingestion"). -/
def normalize_position : Option String → String
  | none => "general labor"
  | some s =>
    if canonicalize_label s = "forklift driver" then "forklift driver" else "general labor"

/-- Modelled from the spec: `get_base_rate_for_position` is missing from the
source tree. Spec §4.2: a pure static table lookup, general labor at 16.00 and
forklift driver at 18.00, failing with `UnknownPositionError` (here `none`)
only on a label outside the known set. -/
def get_base_rate_for_position (position : String) : Option ℚ :=
  if position = "general labor" then some 16
  else if position = "forklift driver" then some 18
  else none

/-- Base-rate resolution with manual override, as inlined in
`ensure_worker_wage_rate` (src/app/utils.py lines 284-289) and
`calculate_correct_wage_rate` (src/wage_rate_restructure.py lines 183-188):
the override wins when given, otherwise the standard rate for the position;
an unknown position raises. -/
def get_base_rate_with_override (normalized_position : String) (base_rate_override : Option ℚ) :
    Except String ℚ :=
  match base_rate_override with
  | some v => Except.ok v
  | none =>
    match get_base_rate_for_position normalized_position with
    | some r => Except.ok r
    | none => Except.error "UnknownPositionError"

/-! ## Agency markup resolver
(`get_agency_markup_for_date` in src/app/utils.py lines 157-188; the method of
the same name in src/wage_rate_restructure.py lines 91-105 is the same logic —
both default a missing date argument to today, look the agency up by exact
name, and take the most recent markup with effective_date on or before the
query date, returning 0.0 on a missing agency or no qualifying markup.) -/

def get_agency_markup_for_date (t : Tables) (today : Date) (agency_name : String)
    (effective_date : Option Date) : ℚ :=
  let d := effective_date.getD today
  match (t.agencies.filter (fun a => decide (a.name = agency_name))).head? with
  | none => 0
  | some agency =>
    match firstMaxBy (fun m => m.effective_date)
        (t.agency_markups.filter
          (fun m => decide (m.agency_id = agency.id) && decide (m.effective_date ≤ d))) with
    | none => 0
    | some markup_obj => markup_obj.markup

/-- Modelled from the spec: `get_markup_for_agency` is imported from
`app.validation` by `src/app/routes/dashboard.py` but missing from the source
tree. Per spec §4.1 it resolves the agency's markup as of today, failing soft
to 0.0 when the agency is unknown (a null agency name matches no agency). -/
def get_markup_for_agency (t : Tables) (today : Date) (agency : Option String) : ℚ :=
  match agency with
  | none => 0
  | some a => get_agency_markup_for_date t today a (some today)

/-! ## Worker history inspector (src/app/utils.py lines 219-247; the identical
methods of `WageRateRestructurer` in src/wage_rate_restructure.py lines 127-152) -/

/-- Hire date: date of the first timesheet entry (ascending by date), today if none. -/
def get_worker_hire_date (t : Tables) (today : Date) (worker_id : String) : Date :=
  match firstMinBy (fun e => e.date)
      (t.timesheet_entries.filter (fun e => decide (e.worker_id = worker_id))) with
  | some first_entry => first_entry.date
  | none => today

/-- Most recent agency: agency of the latest timesheet entry whose agency is
non-null; falling back to the first wage-rate row with a non-null agency. -/
def get_worker_current_agency (t : Tables) (worker_id : String) : Option String :=
  match firstMaxBy (fun e => e.date)
      (t.timesheet_entries.filter
        (fun e => decide (e.worker_id = worker_id) && e.agency.isSome)) with
  | some recent_entry => recent_entry.agency
  | none =>
    match (t.wage_rates.filter
        (fun r => decide (r.worker_id = worker_id) && r.agency.isSome)).head? with
    | some existing_wage => existing_wage.agency
    | none => none

/-! ## Hours aggregator (src/app/utils.py lines 18-25 and 47-53) -/

/-- One timesheet row as `calculate_daily_hours` sees it: clock times already
combined into datetimes (rational hours); `lunch_minutes` may be absent
(`row.get('lunch_minutes', 30)` defaults to 30). -/
structure HoursRow where
  time_in : ℚ
  time_out : ℚ
  lunch_minutes : Option ℚ
deriving DecidableEq, Repr

/-- `calculate_daily_hours`: clock-out minus clock-in, minus the lunch break in
hours, clamped below at 0. -/
def calculate_daily_hours (row : HoursRow) : ℚ :=
  let duration := row.time_out - row.time_in
  let lunch := row.lunch_minutes.getD 30 / 60
  max 0 (duration - lunch)

/-- The overnight correction of `process_timesheet` (src/app/utils.py lines
47-50): if time_out is strictly before time_in, checkout is next day. -/
def overnight_adjust (row : HoursRow) : HoursRow :=
  if row.time_out < row.time_in then { row with time_out := row.time_out + 24 } else row

/-! ## Wage rate reconciliation engine (src/app/utils.py lines 250-345) -/

/-- Manual-override detection, as written identically in
`ensure_worker_wage_rate` (src/app/utils.py lines 308-314) and
`update_wage_rates_with_business_rules` (src/wage_rate_restructure.py lines
332-341): when the existing row has a non-null base_rate and a truthy role,
the row is an override iff the base rate deviates from the role's standard
rate by more than one cent; looking up an unknown role raises. -/
def detect_manual_override (existing_wage : WageRate) : Except String Bool :=
  match existing_wage.base_rate with
  | none => Except.ok false
  | some b =>
    if strTruthy existing_wage.role then
      match get_base_rate_for_position (existing_wage.role.getD "") with
      | none => Except.error "UnknownPositionError"
      | some standard_rate => Except.ok (decide (|b - standard_rate| > 1 / 100))
    else Except.ok false

/-- Create the worker row if it does not exist yet (`Worker.query.filter_by`
then `db.session.add`, src/app/utils.py lines 294-300; the same check appears
in the upload route, src/app/routes/dashboard.py lines 270-273). -/
def ensure_worker_row (t : Tables) (worker_id : String) : Tables :=
  match (t.workers.filter (fun w => decide (w.worker_id = worker_id))).head? with
  | some _ => t
  | none =>
    { t with workers := t.workers ++
        [{ id := freshId (t.workers.map (fun w => w.id)), worker_id := worker_id,
           name := none, is_active := true }] }

/-- `ensure_worker_wage_rate` (src/app/utils.py lines 250-345). The
`effective_date` argument is accepted and ignored (the source always uses the
hire date); a falsy agency argument is replaced by the worker's current agency
and the call raises if that is still falsy; the standard rate is overridden by
`base_rate_override` when given; the markup is always resolved as of today;
exactly the first wage-rate row keyed by worker_id alone is updated in place,
otherwise a new row is created; both branches end in `db.session.commit()`. -/
def ensure_worker_wage_rate (s : Session) (today : Date) (worker_id : String)
    (position : Option String) (agency_name : Option String)
    (effective_date : Option Date) (base_rate_override : Option ℚ) :
    Session × Except String WageRate :=
  let p := s.pending
  let hire_date := get_worker_hire_date p today worker_id
  let resolved_agency :=
    if strTruthy agency_name then agency_name else get_worker_current_agency p worker_id
  match resolved_agency with
  | none => (s, Except.error ("Cannot determine agency for worker " ++ worker_id))
  | some aname =>
    if aname = "" then (s, Except.error ("Cannot determine agency for worker " ++ worker_id))
    else
      let normalized_position := normalize_position position
      match get_base_rate_with_override normalized_position base_rate_override with
      | Except.error e => (s, Except.error e)
      | Except.ok base_rate =>
        let markup := get_agency_markup_for_date p today aname (some today)
        let p := ensure_worker_row p worker_id
        match (p.wage_rates.filter (fun r => decide (r.worker_id = worker_id))).head? with
        | some existing_wage =>
          match detect_manual_override existing_wage with
          | Except.error e => ({ s with pending := p }, Except.error e)
          | Except.ok has_manual_override =>
            let updated := { existing_wage with
              role := some normalized_position
              agency := some aname
              markup := some markup
              effective_date := some hire_date
              base_rate :=
                if base_rate_override.isSome then some base_rate
                else if has_manual_override then existing_wage.base_rate
                else some base_rate }
            let new_rates := updateFirst (fun r => decide (r.worker_id = worker_id))
              (fun _ => updated) p.wage_rates
            let p2 := { p with wage_rates := new_rates }
            (Session.commit { s with pending := p2 }, Except.ok updated)
        | none =>
          let new_wage : WageRate :=
            { id := freshId (p.wage_rates.map (fun r => r.id))
              worker_id := worker_id
              base_rate := some base_rate
              role := some normalized_position
              agency := some aname
              markup := some markup
              effective_date := some hire_date }
          let p2 := { p with wage_rates := p.wage_rates ++ [new_wage] }
          (Session.commit { s with pending := p2 }, Except.ok new_wage)

/-! ## Batch reconciliation over the in-memory timesheet DataFrame
(src/app/utils.py lines 348-456) -/

/-- One row of the `MASTER_TIMESHEET_DF` DataFrame as `populate_missing_wage_rates` reads it. -/
structure DfRow where
  worker_id : String
  position : Option String
  agency : Option String
  date : Date
deriving DecidableEq, Repr

/-- One row of the per-worker aggregation (src/app/utils.py lines 374-381):
position is the group's first non-null position, current_agency its last
non-null agency, hire_date the group's minimum date. The `latest_date` column
is computed by the source but never used afterwards. -/
structure WorkerInfo where
  worker_id : String
  position : Option String
  current_agency : Option String
  hire_date : Date
deriving DecidableEq, Repr

/-- `timesheet_df.groupby('worker_id').agg(...)`: group keys sorted ascending
(pandas default), with first/last non-null aggregation and min date. -/
def worker_info (df : List DfRow) : List WorkerInfo :=
  (sortStrings (firstDedup (df.map (fun r => r.worker_id)))).map (fun w =>
    let g := df.filter (fun r => decide (r.worker_id = w))
    { worker_id := w
      position := firstSome (g.map (fun r => r.position))
      current_agency := lastSome (g.map (fun r => r.agency))
      hire_date := ((firstMinBy (fun r => r.date) g).map (fun r => r.date)).getD 0 })

/-- Summary dictionary of `populate_missing_wage_rates`. -/
structure PopSummary where
  workers_processed : Nat
  wage_rates_created : Nat
  wage_rates_updated : Nat
  errors : List String
deriving DecidableEq, Repr

def popErrMsg (worker_id msg : String) : String :=
  "Error processing worker " ++ worker_id ++ ": " ++ msg

/-- The body of the per-worker loop of `populate_missing_wage_rates`
(src/app/utils.py lines 385-424): count the worker, look up its wage-rate row
by worker_id only, decide whether an update is needed (agency transfer, wrong
effective date, or missing data — compared against the DataFrame aggregation),
call `ensure_worker_wage_rate` when needed or when no row exists, and on an
exception record the error and continue. -/
def popStep (today : Date) (acc : Session × PopSummary) (row : WorkerInfo) :
    Session × PopSummary :=
  let s := acc.1
  let sum := { acc.2 with workers_processed := acc.2.workers_processed + 1 }
  match (s.pending.wage_rates.filter (fun r => decide (r.worker_id = row.worker_id))).head? with
  | some existing_wage =>
    let needs_update : Bool :=
      decide (existing_wage.agency ≠ row.current_agency)
      || decide (existing_wage.effective_date ≠ some row.hire_date)
      || !strTruthy existing_wage.role
      || existing_wage.base_rate.isNone
      || existing_wage.markup.isNone
    if needs_update then
      match ensure_worker_wage_rate s today row.worker_id row.position row.current_agency
          none none with
      | (s', Except.ok _) =>
        (s', { sum with wage_rates_updated := sum.wage_rates_updated + 1 })
      | (s', Except.error e) =>
        (s', { sum with errors := sum.errors ++ [popErrMsg row.worker_id e] })
    else (s, sum)
  | none =>
    match ensure_worker_wage_rate s today row.worker_id row.position row.current_agency
        none none with
    | (s', Except.ok _) =>
      (s', { sum with wage_rates_created := sum.wage_rates_created + 1 })
    | (s', Except.error e) =>
      (s', { sum with errors := sum.errors ++ [popErrMsg row.worker_id e] })

/-- `populate_missing_wage_rates` (src/app/utils.py lines 348-426). -/
def populate_missing_wage_rates (s : Session) (today : Date) (df : List DfRow) :
    Session × PopSummary :=
  (worker_info df).foldl (popStep today) (s, ⟨0, 0, 0, []⟩)

/-- `update_all_worker_wage_rates` (src/app/utils.py lines 429-456): run the
populate pass, then commit, or roll the session back when `dry_run` is set.
(The empty-DataFrame early return reports an error dictionary, modelled as an
error entry.) -/
def update_all_worker_wage_rates (s : Session) (today : Date) (df : List DfRow)
    (dry_run : Bool) : Session × PopSummary :=
  if df.isEmpty then (s, ⟨0, 0, 0, ["No timesheet data available"]⟩)
  else
    let r := populate_missing_wage_rates s today df
    if dry_run then (Session.rollback r.1, r.2) else (Session.commit r.1, r.2)

/-! ## Wage rate restructuring tool (src/wage_rate_restructure.py) -/

/-- The `changes_made` dictionary of `WageRateRestructurer`. -/
structure RestructureChanges where
  duplicates_removed : Nat
  entries_updated : Nat
  entries_created : Nat
  workers_processed : Nat
  errors : List String
deriving DecidableEq, Repr

def restructureErrMsg (worker_id msg : String) : String :=
  "Could not calculate correct values for " ++ worker_id ++ ": " ++ msg

/-- `determine_worker_position` (src/wage_rate_restructure.py lines 107-121):
the role of the first wage-rate row with a non-null role, defaulting to
"general labor" (also when that role is the empty string). -/
def determine_worker_position (t : Tables) (worker_id : String) : String :=
  match (t.wage_rates.filter
      (fun r => decide (r.worker_id = worker_id) && r.role.isSome)).head? with
  | some existing_wage =>
    if strTruthy existing_wage.role then existing_wage.role.getD "" else "general labor"
  | none => "general labor"

/-- The result dictionary of `calculate_correct_wage_rate`. -/
structure CorrectValues where
  base_rate : ℚ
  role : String
  agency : String
  markup : ℚ
  effective_date : Date
deriving DecidableEq, Repr

/-- `calculate_correct_wage_rate` (src/wage_rate_restructure.py lines 154-202):
a falsy position falls back to `determine_worker_position`, a falsy agency to
the worker's current agency (`determine_worker_agency` simply delegates to
`get_worker_current_agency`, so the `use_current_agency` flag is inert) and
raises if still falsy; the effective_date argument is defaulted but unused —
the returned effective_date is always the hire date; the markup is resolved as
of today. -/
def calculate_correct_wage_rate (t : Tables) (today : Date) (worker_id : String)
    (position : Option String) (agency : Option String) (effective_date : Option Date)
    (base_rate_override : Option ℚ) (use_current_agency : Bool) :
    Except String CorrectValues :=
  let position :=
    if strTruthy position then position else some (determine_worker_position t worker_id)
  let agency := if strTruthy agency then agency else get_worker_current_agency t worker_id
  match agency with
  | none => Except.error ("Cannot determine agency for worker " ++ worker_id)
  | some aname =>
    if aname = "" then Except.error ("Cannot determine agency for worker " ++ worker_id)
    else
      let hire_date := get_worker_hire_date t today worker_id
      match get_base_rate_with_override (normalize_position position) base_rate_override with
      | Except.error e => Except.error e
      | Except.ok base_rate =>
        let markup := get_agency_markup_for_date t today aname (some today)
        Except.ok { base_rate := base_rate, role := normalize_position position,
                    agency := aname, markup := markup, effective_date := hire_date }

/-- Completeness-plus-recency score of `select_best_wage_entry`
(src/wage_rate_restructure.py lines 212-230): 10 points for a truthy role and
10 each for a non-null base_rate, markup and effective_date, plus
`max(0, 365 - days_diff) / 365 * 5` where `days_diff` is today minus the
effective date (so a future effective date scores more than 5). -/
def recency_bonus (today : Date) (e : WageRate) : ℚ :=
  match e.effective_date with
  | some d => ((max 0 (365 - (today - d)) : Int) : ℚ) / 365 * 5
  | none => 0

def wage_entry_score (today : Date) (e : WageRate) : ℚ :=
  (if strTruthy e.role then 10 else 0)
  + (if e.base_rate.isSome then 10 else 0)
  + (if e.markup.isSome then 10 else 0)
  + (if e.effective_date.isSome then 10 else 0)
  + recency_bonus today e

/-- `select_best_wage_entry` (src/wage_rate_restructure.py lines 204-235):
a single entry is returned as is; otherwise the entries are sorted by score
descending (Python's sort is stable, so among equal scores the original list
order is kept) and the first is returned. An empty list is an error in the
source (IndexError); modelled as `none`. -/
def select_best_wage_entry (today : Date) (wage_entries : List WageRate) :
    Option WageRate :=
  match wage_entries with
  | [e] => some e
  | es => firstMaxBy (wage_entry_score today) es

/-- Worker ids owning more than one wage-rate row, in order of first appearance
(the iteration order of the `worker_entries` dict built from `query.all()`). -/
def duplicate_worker_ids (t : Tables) : List String :=
  (firstDedup (t.wage_rates.map (fun r => r.worker_id))).filter
    (fun w => decide (1 < (t.wage_rates.filter (fun r => decide (r.worker_id = w))).length))

/-- `clean_duplicate_entries` (src/wage_rate_restructure.py lines 237-281):
for each worker with duplicates, keep the best entry and delete the rest
(skipped entirely in dry-run; the flush commits nothing). -/
def clean_duplicate_entries (t : Tables) (today : Date) (dry_run : Bool)
    (ch : RestructureChanges) : Tables × RestructureChanges :=
  (duplicate_worker_ids t).foldl (fun acc w =>
    let entries := acc.1.wage_rates.filter (fun r => decide (r.worker_id = w))
    match select_best_wage_entry today entries with
    | none => acc
    | some best =>
      let n := (entries.filter (fun e => decide (e.id ≠ best.id))).length
      if dry_run then acc
      else
        let kept := acc.1.wage_rates.filter
          (fun r => !(decide (r.worker_id = w) && decide (r.id ≠ best.id)))
        ({ acc.1 with wage_rates := kept },
         { acc.2 with duplicates_removed := acc.2.duplicates_removed + n })) (t, ch)

/-- The `needs_update` flag of the per-row loop of
`update_wage_rates_with_business_rules` (src/wage_rate_restructure.py lines
295-364), as one boolean: missing role/base/markup/effective date, agency
transfer, wrong effective date, denormalized role, incorrect non-overridden
base rate, incorrect markup. (The source accumulates the first six checks
before the try-block and the last three inside it; when the try-block raises,
the flag is discarded by the `continue`, so combining them is value-equal.) -/
def restructure_needs_update (wage : WageRate) (current_agency : Option String)
    (hire_date : Date) (has_manual_override : Bool) (correct : CorrectValues) : Bool :=
  !strTruthy wage.role || wage.base_rate.isNone || wage.markup.isNone
  || wage.effective_date.isNone
  || decide (wage.agency ≠ current_agency)
  || (wage.effective_date.isSome && decide (wage.effective_date ≠ some hire_date))
  || (strTruthy wage.role && decide (wage.role ≠ some correct.role))
  || (wage.base_rate.isSome && !has_manual_override
      && decide (|wage.base_rate.getD 0 - correct.base_rate| > 1 / 100))
  || (wage.markup.isSome
      && decide (|wage.markup.getD 0 - correct.markup| > 1 / 1000))

/-- The in-place mutation of a wage row by the per-row loop
(src/wage_rate_restructure.py lines 375-391): fill the missing role, reset the
base rate unless manually overridden, reset the markup only when it was null
or the agency changed (checked against the agency before reassignment), and
always set agency to the current agency and effective date to the hire date. -/
def apply_wage_update (wage : WageRate) (current_agency : Option String)
    (hire_date : Date) (has_manual_override : Bool) (correct : CorrectValues) : WageRate :=
  { wage with
    role := if strTruthy wage.role then wage.role else some correct.role
    base_rate :=
      if wage.base_rate.isNone || !has_manual_override then some correct.base_rate
      else wage.base_rate
    markup :=
      if wage.markup.isNone || decide (wage.agency ≠ current_agency) then
        some correct.markup
      else wage.markup
    agency := current_agency
    effective_date := some hire_date }

/-- Processing of one found wage-rate row by the per-row loop
(src/wage_rate_restructure.py lines 290-402): detect a manual override and
compute the correct values (errors from these two steps are recorded per row
and processing continues, skipping the row's `workers_processed` count);
then, when an update is needed (`restructure_needs_update`) and not in
dry-run, mutate the row in place (`apply_wage_update`). -/
def processWageRow (today : Date) (dry_run : Bool) (t : Tables) (ch : RestructureChanges)
    (wid : Nat) (wage : WageRate) : Tables × RestructureChanges :=
  let current_agency := get_worker_current_agency t wage.worker_id
  let hire_date := get_worker_hire_date t today wage.worker_id
  match detect_manual_override wage with
  | Except.error e =>
    (t, { ch with errors := ch.errors ++ [restructureErrMsg wage.worker_id e] })
  | Except.ok has_manual_override =>
    match calculate_correct_wage_rate t today wage.worker_id wage.role current_agency none
        (if has_manual_override then wage.base_rate else none) true with
    | Except.error e =>
      (t, { ch with errors := ch.errors ++ [restructureErrMsg wage.worker_id e] })
    | Except.ok correct =>
      if restructure_needs_update wage current_agency hire_date has_manual_override correct
          && !dry_run then
        let new_rates := updateFirst (fun r => decide (r.id = wid))
          (fun _ => apply_wage_update wage current_agency hire_date has_manual_override
            correct) t.wage_rates
        ({ t with wage_rates := new_rates },
         { ch with entries_updated := ch.entries_updated + 1,
                   workers_processed := ch.workers_processed + 1 })
      else (t, { ch with workers_processed := ch.workers_processed + 1 })

/-- The body of the per-row loop: look the row up by primary key (a row absent
from the snapshot is skipped) and process it. -/
def processWage (today : Date) (dry_run : Bool) (acc : Tables × RestructureChanges)
    (wid : Nat) : Tables × RestructureChanges :=
  match (acc.1.wage_rates.filter (fun r => decide (r.id = wid))).head? with
  | none => (acc.1, acc.2)
  | some wage => processWageRow today dry_run acc.1 acc.2 wid wage

/-- `update_wage_rates_with_business_rules` (src/wage_rate_restructure.py lines
283-402): process every wage-rate row present when the pass starts (the
snapshot of primary keys taken by `WageRate.query.all()`). -/
def update_wage_rates_with_business_rules (t : Tables) (today : Date) (dry_run : Bool)
    (ch : RestructureChanges) : Tables × RestructureChanges :=
  (t.wage_rates.map (fun r => r.id)).foldl (processWage today dry_run) (t, ch)

/-- `WageRateRestructurer.restructure` (src/wage_rate_restructure.py lines
428-476): clean duplicates, apply the business rules, then commit — or roll
back when `dry_run` is set. -/
def restructure (s : Session) (today : Date) (dry_run : Bool) :
    Session × RestructureChanges :=
  let r1 := clean_duplicate_entries s.pending today dry_run ⟨0, 0, 0, 0, []⟩
  let r2 := update_wage_rates_with_business_rules r1.1 today dry_run r1.2
  if dry_run then (Session.rollback { s with pending := r2.1 }, r2.2)
  else (Session.commit { s with pending := r2.1 }, r2.2)

/-! ## Timesheet upload (src/app/routes/dashboard.py lines 215-300) -/

/-- One parsed CSV row of an upload, after the pandas conversions: position is
the raw CSV value (normalized during extraction in the route). -/
structure UploadRow where
  worker_id : String
  date : Date
  time_in : ℚ
  time_out : ℚ
  lunch_minutes : Int
  agency : Option String
  position : Option String
deriving DecidableEq, Repr

/-- First appearance date of each worker within the uploaded file
(src/app/routes/dashboard.py lines 233-240). -/
def worker_first_dates (rows : List UploadRow) (w : String) : Date :=
  (((firstMinBy (fun r => r.date) (rows.filter (fun r => decide (r.worker_id = w)))).map
    (fun r => r.date)).getD 0)

/-- The per-row body of the upload loop (src/app/routes/dashboard.py lines
245-294): skip rows duplicating an existing timesheet entry on
(worker_id, date, time_in); otherwise insert the timesheet entry, sync the
Worker table, and — keyed by the (worker_id, agency) pair — insert a WageRate
row when none exists for that pair and the row has a position (an unknown
position only flashes a warning and skips the wage rate). -/
def upload_process_row (today : Date) (firstDates : String → Date) (t : Tables)
    (r : UploadRow) : Tables :=
  let dup := (t.timesheet_entries.filter (fun e =>
    decide (e.worker_id = r.worker_id) && decide (e.date = r.date)
    && decide (e.time_in = r.time_in))).head?
  match dup with
  | some _ => t
  | none =>
    let entry : TimesheetEntry :=
      { id := freshId (t.timesheet_entries.map (fun e => e.id)), worker_id := r.worker_id,
        date := r.date, time_in := r.time_in, time_out := r.time_out,
        lunch_minutes := r.lunch_minutes, agency := r.agency }
    let t := { t with timesheet_entries := t.timesheet_entries ++ [entry] }
    let t := ensure_worker_row t r.worker_id
    let position := r.position.map (fun praw => normalize_position (some praw))
    let wage_rate_exists := (t.wage_rates.filter (fun x =>
      decide (x.worker_id = r.worker_id) && decide (x.agency = r.agency))).head?
    match wage_rate_exists, position with
    | none, some p =>
      match get_base_rate_for_position p with
      | none => t
      | some base_rate =>
        let markup := get_markup_for_agency t today r.agency
        let wage : WageRate :=
          { id := freshId (t.wage_rates.map (fun x => x.id)), worker_id := r.worker_id,
            base_rate := some base_rate, role := some p, agency := r.agency,
            markup := some markup, effective_date := some (firstDates r.worker_id) }
        { t with wage_rates := t.wage_rates ++ [wage] }
    | _, _ => t

/-- The upload loop over all CSV rows, followed by a single commit. -/
def upload (s : Session) (today : Date) (rows : List UploadRow) : Session :=
  let t := rows.foldl (upload_process_row today (worker_first_dates rows)) s.pending
  Session.commit { s with pending := t }

/-- The duplicate-scoring rule as the spec states it, for comparison with the
source's `wage_entry_score`: 10 points for each non-null field among role,
base_rate, markup and effective_date, plus a recency bonus of at most 5
points decaying linearly over a 365-day window from today and floored at 0
for older dates. -/
def spec_wage_entry_score (today : Date) (e : WageRate) : ℚ :=
  (if e.role.isSome then 10 else 0) + (if e.base_rate.isSome then 10 else 0)
  + (if e.markup.isSome then 10 else 0) + (if e.effective_date.isSome then 10 else 0)
  + (match e.effective_date with
     | some d => min 5 (((max 0 (365 - (today - d)) : Int) : ℚ) / 365 * 5)
     | none => 0)

/-- A wage-rate row already in the reconciled form targeted by
`update_wage_rates_with_business_rules`: agency determinable and equal to the
current agency, effective date equal to the hire date, canonical role,
non-null base rate, and markup equal to the markup currently resolved for the
agency. -/
def rowUpToDate (t : Tables) (today : Date) (rw : WageRate) : Prop :=
  strTruthy (get_worker_current_agency t rw.worker_id) = true ∧
  rw.agency = get_worker_current_agency t rw.worker_id ∧
  rw.effective_date = some (get_worker_hire_date t today rw.worker_id) ∧
  (rw.role = some "general labor" ∨ rw.role = some "forklift driver") ∧
  rw.base_rate.isSome = true ∧
  rw.markup = some (get_agency_markup_for_date t today
    ((get_worker_current_agency t rw.worker_id).getD "") (some today))

/-! ## Concrete example rows and tables used by individual theorems -/

/-- Agency X with markups 0.20 effective day 1096 (2023-01-01) and 0.25
effective day 1247 (2023-06-01); dates encoded by order-preserving day numbers. -/
def exMarkupTables : Tables := ⟨[], [], [], [⟨1, "X"⟩], [⟨1, 1, 1/5, 1096⟩, ⟨2, 1, 1/4, 1247⟩]⟩

def cexTie7 : WageRate := ⟨7, "dupw", some 16, some "general labor", none, some (1/4), some 0⟩
def cexTie5 : WageRate := ⟨5, "dupw", some 16, some "general labor", none, some (1/4), some 0⟩
def cexFutureA : WageRate := ⟨1, "w", none, none, none, none, some 366⟩
def cexFutureB : WageRate := ⟨2, "w", some 16, some "general labor", none, none, none⟩
def cexEmptyRoleC : WageRate := ⟨1, "w", some 16, some "", none, some (1/4), none⟩
def cexEmptyRoleD : WageRate := ⟨2, "w", none, none, none, some (1/4), some 0⟩

def exDup30 : WageRate := ⟨2, "dupw", some 16, some "general labor", none, some (1/4), none⟩
def exDup40a : WageRate := ⟨5, "dupw", some 16, some "general labor", none, some (1/4), some 0⟩
def exDup40b : WageRate := ⟨7, "dupw", some 18, some "forklift driver", none, some (1/4), some 0⟩
def exDupTables : Tables := ⟨[], [exDup30, exDup40a, exDup40b], [], [], []⟩

/-- A worker with two pre-existing WageRate rows (legacy duplicates) and one
timesheet entry under agency A. -/
def cexDupTables : Tables :=
  ⟨[⟨1, "w", none, true⟩],
   [⟨1, "w", none, none, none, none, none⟩, ⟨2, "w", none, none, none, none, none⟩],
   [⟨1, "w", 0, 9, 17, 30, some "A"⟩], [], []⟩

/-- A fresh database holding only one timesheet entry for worker w. -/
def exSingleT : Tables := ⟨[], [], [⟨1, "w", 0, 9, 17, 30, some "A"⟩], [], []⟩

/-- The database state after reconciling worker w in `exSingleT`. -/
def exSingleOut : Tables :=
  ⟨[⟨1, "w", none, true⟩],
   [⟨1, "w", some 16, some "general labor", some "A", some 0, some 0⟩],
   [⟨1, "w", 0, 9, 17, 30, some "A"⟩], [], []⟩

def exSingleRow : WageRate := ⟨1, "w", some 16, some "general labor", some "A", some 0, some 0⟩

/-- A worker whose stored role is forklift driver while the incoming position is
general labor, with a base rate of 16.005 — an override against the forklift
standard (18.00) but within a cent of the general-labor standard (16.00). -/
def cexT2 : Tables :=
  ⟨[⟨1, "w", none, true⟩],
   [⟨1, "w", some (3201/200), some "forklift driver", some "A", some 0, some 0⟩],
   [⟨1, "w", 0, 9, 17, 30, some "A"⟩], [], []⟩

/-- A fully normalized wage row whose stored markup (0.30) is stale against the
schedule (0.25 as of day 10) while its agency is unchanged. -/
def cexT2b : Tables :=
  ⟨[⟨1, "w", none, true⟩],
   [⟨1, "w", some 16, some "general labor", some "A", some (3/10), some 0⟩],
   [⟨1, "w", 0, 9, 17, 30, some "A"⟩],
   [⟨1, "A"⟩], [⟨1, 1, 1/4, 0⟩]⟩

/-- A database whose single wage row is already in the reconciled target form
as of day 10: current agency A, hire date 0, canonical role, schedule markup. -/
def exUpToDateT : Tables :=
  ⟨[⟨1, "w", none, true⟩],
   [⟨1, "w", some 16, some "general labor", some "A", some (1/4), some 0⟩],
   [⟨1, "w", 0, 9, 17, 30, some "A"⟩],
   [⟨1, "A"⟩], [⟨1, 1, 1/4, 0⟩]⟩

/-- A database already holding the timesheet entry (worker w, day 0, clock-in 9)
under agency B, and no wage rate at all. -/
def cexT9 : Tables := ⟨[⟨1, "w", none, true⟩], [], [⟨1, "w", 0, 9, 17, 30, some "B"⟩], [], []⟩

/-- An uploaded row for the same (worker, date, time_in) key under agency A
with a known position. -/
def cexRow9 : UploadRow := ⟨"w", 0, 9, 17, 30, some "A", some "general labor"⟩

/-- A database with worker w active under agency B: one timesheet entry and one
wage rate keyed (w, B). -/
def exT9 : Tables :=
  ⟨[⟨1, "w", none, true⟩],
   [⟨1, "w", some 16, some "general labor", some "B", some 0, some 0⟩],
   [⟨1, "w", 0, 9, 17, 30, some "B"⟩], [], []⟩

/-- An uploaded row moving worker w to agency A on a fresh (date, time_in) key. -/
def exRow9 : UploadRow := ⟨"w", 1, 9, 17, 30, some "A", some "general labor"⟩

/-! ## General lemmas about the query combinators -/

theorem foldl_pickMax_spec {α β : Type} [LinearOrder β] (f : α → β) (idx : α → Nat) :
    ∀ (xs : List α) (x : α),
      (xs.foldl (fun b y => if f b < f y then y else b) x) ∈ x :: xs ∧
      (∀ b ∈ x :: xs, f b ≤ f (xs.foldl (fun b y => if f b < f y then y else b) x)) ∧
      ((x :: xs).Pairwise (fun u v => idx u < idx v) →
        ∀ b ∈ x :: xs, f b = f (xs.foldl (fun b y => if f b < f y then y else b) x) →
          idx (xs.foldl (fun b y => if f b < f y then y else b) x) ≤ idx b) := by
  intro xs
  induction xs with
  | nil =>
    intro x
    simp only [List.foldl_nil]
    refine ⟨List.mem_singleton.mpr rfl, ?_, ?_⟩
    · intro b hb
      rw [List.mem_singleton.mp hb]
    · intro _ b hb _
      rw [List.mem_singleton.mp hb]
  | cons y ys ih =>
    intro x
    simp only [List.foldl_cons]
    by_cases hxy : f x < f y
    · rw [if_pos hxy]
      obtain ⟨ihmem, ihmax, ihfirst⟩ := ih y
      refine ⟨?_, ?_, ?_⟩
      · rcases List.mem_cons.mp ihmem with h | h
        · rw [h]; exact List.mem_cons_of_mem _ (List.mem_cons_self _ _)
        · exact List.mem_cons_of_mem _ (List.mem_cons_of_mem _ h)
      · intro b hb
        rcases List.mem_cons.mp hb with h | h
        · rw [h]
          exact le_trans (le_of_lt hxy) (ihmax y (List.mem_cons_self _ _))
        · exact ihmax b h
      · intro hp b hb hfb
        rw [List.pairwise_cons] at hp
        obtain ⟨hxlt, hp2⟩ := hp
        rcases List.mem_cons.mp hb with h | h
        · exfalso
          have hlt : f b < f (ys.foldl (fun b y => if f b < f y then y else b) y) := by
            rw [h]
            exact lt_of_lt_of_le hxy (ihmax y (List.mem_cons_self _ _))
          exact absurd hfb (ne_of_lt hlt)
        · exact ihfirst hp2 b h hfb
    · rw [if_neg hxy]
      obtain ⟨ihmem, ihmax, ihfirst⟩ := ih x
      refine ⟨?_, ?_, ?_⟩
      · rcases List.mem_cons.mp ihmem with h | h
        · rw [h]; exact List.mem_cons_self _ _
        · exact List.mem_cons_of_mem _ (List.mem_cons_of_mem _ h)
      · intro b hb
        rcases List.mem_cons.mp hb with h | h
        · rw [h]; exact ihmax x (List.mem_cons_self _ _)
        rcases List.mem_cons.mp h with h' | h'
        · rw [h']
          exact le_trans (le_of_not_lt hxy) (ihmax x (List.mem_cons_self _ _))
        · exact ihmax b (List.mem_cons_of_mem _ h')
      · intro hp b hb hfb
        rw [List.pairwise_cons] at hp
        obtain ⟨hxlt, hp2⟩ := hp
        rw [List.pairwise_cons] at hp2
        obtain ⟨hylt, hp3⟩ := hp2
        have hpx : (x :: ys).Pairwise (fun u v => idx u < idx v) := by
          rw [List.pairwise_cons]
          exact ⟨fun z hz => hxlt z (List.mem_cons_of_mem _ hz), hp3⟩
        rcases List.mem_cons.mp hb with h | h
        · rw [h] at hfb ⊢
          exact ihfirst hpx x (List.mem_cons_self _ _) hfb
        rcases List.mem_cons.mp h with h' | h'
        · -- b = y with f y ≤ f x: the fold result ties y only if it also ties x,
          -- and then it sits no later than x, which precedes y
          have hyb : f b ≤ f x := by rw [h']; exact le_of_not_lt hxy
          have hxmax : f x ≤ f (ys.foldl (fun b y => if f b < f y then y else b) x) :=
            ihmax x (List.mem_cons_self _ _)
          have hfx : f x = f (ys.foldl (fun b y => if f b < f y then y else b) x) :=
            le_antisymm hxmax (hfb ▸ hyb)
          have h1 := ihfirst hpx x (List.mem_cons_self _ _) hfx
          rw [h']
          exact le_trans h1 (le_of_lt (hxlt y (List.mem_cons_self _ _)))
        · exact ihfirst hpx b (List.mem_cons_of_mem _ h') hfb

theorem firstMaxBy_spec {α β : Type} [LinearOrder β] (f : α → β) (idx : α → Nat)
    (l : List α) (a : α) (h : firstMaxBy f l = some a) :
    a ∈ l ∧ (∀ b ∈ l, f b ≤ f a) ∧
    (l.Pairwise (fun u v => idx u < idx v) → ∀ b ∈ l, f b = f a → idx a ≤ idx b) := by
  cases l with
  | nil => simp [firstMaxBy] at h
  | cons x xs =>
    simp only [firstMaxBy, Option.some.injEq] at h
    obtain ⟨hmem, hmax, hfirst⟩ := foldl_pickMax_spec f idx xs x
    rw [h] at hmem hmax hfirst
    exact ⟨hmem, hmax, hfirst⟩

theorem foldl_pickMin_spec {α β : Type} [LinearOrder β] (f : α → β) :
    ∀ (xs : List α) (x : α),
      (xs.foldl (fun b y => if f y < f b then y else b) x) ∈ x :: xs ∧
      (∀ b ∈ x :: xs, f (xs.foldl (fun b y => if f y < f b then y else b) x) ≤ f b) := by
  intro xs
  induction xs with
  | nil =>
    intro x
    simp only [List.foldl_nil]
    refine ⟨List.mem_singleton.mpr rfl, ?_⟩
    intro b hb
    rw [List.mem_singleton.mp hb]
  | cons y ys ih =>
    intro x
    simp only [List.foldl_cons]
    by_cases hxy : f y < f x
    · rw [if_pos hxy]
      obtain ⟨ihmem, ihmin⟩ := ih y
      refine ⟨?_, ?_⟩
      · rcases List.mem_cons.mp ihmem with h | h
        · rw [h]; exact List.mem_cons_of_mem _ (List.mem_cons_self _ _)
        · exact List.mem_cons_of_mem _ (List.mem_cons_of_mem _ h)
      · intro b hb
        rcases List.mem_cons.mp hb with h | h
        · rw [h]
          exact le_trans (ihmin y (List.mem_cons_self _ _)) (le_of_lt hxy)
        · exact ihmin b h
    · rw [if_neg hxy]
      obtain ⟨ihmem, ihmin⟩ := ih x
      refine ⟨?_, ?_⟩
      · rcases List.mem_cons.mp ihmem with h | h
        · rw [h]; exact List.mem_cons_self _ _
        · exact List.mem_cons_of_mem _ (List.mem_cons_of_mem _ h)
      · intro b hb
        rcases List.mem_cons.mp hb with h | h
        · rw [h]; exact ihmin x (List.mem_cons_self _ _)
        rcases List.mem_cons.mp h with h' | h'
        · rw [h']
          exact le_trans (ihmin x (List.mem_cons_self _ _)) (le_of_not_lt hxy)
        · exact ihmin b (List.mem_cons_of_mem _ h')

theorem firstMinBy_spec {α β : Type} [LinearOrder β] (f : α → β)
    (l : List α) (a : α) (h : firstMinBy f l = some a) :
    a ∈ l ∧ (∀ b ∈ l, f a ≤ f b) := by
  cases l with
  | nil => simp [firstMinBy] at h
  | cons x xs =>
    simp only [firstMinBy, Option.some.injEq] at h
    obtain ⟨hmem, hmin⟩ := foldl_pickMin_spec f xs x
    rw [h] at hmem hmin
    exact ⟨hmem, hmin⟩

theorem firstMaxBy_isSome {α β : Type} [LinearOrder β] (f : α → β)
    (l : List α) (h : l ≠ []) : ∃ a, firstMaxBy f l = some a := by
  cases l with
  | nil => exact absurd rfl h
  | cons x xs => exact ⟨_, rfl⟩

theorem firstMinBy_isSome {α β : Type} [LinearOrder β] (f : α → β)
    (l : List α) (h : l ≠ []) : ∃ a, firstMinBy f l = some a := by
  cases l with
  | nil => exact absurd rfl h
  | cons x xs => exact ⟨_, rfl⟩

theorem updateFirst_decomp {α : Type} (p : α → Bool) (f : α → α) :
    ∀ (l : List α) (a : α), (l.filter p).head? = some a →
      ∃ l₁ l₂, l = l₁ ++ a :: l₂ ∧ (∀ x ∈ l₁, p x = false) ∧ p a = true ∧
        updateFirst p f l = l₁ ++ f a :: l₂ := by
  intro l
  induction l with
  | nil => intro a h; simp at h
  | cons x xs ih =>
    intro a h
    by_cases hp : p x
    · rw [List.filter_cons_of_pos hp] at h
      simp only [List.head?_cons, Option.some.injEq] at h
      subst h
      exact ⟨[], xs, by simp, by simp, hp, by simp [updateFirst, hp]⟩
    · rw [List.filter_cons_of_neg hp] at h
      obtain ⟨l₁, l₂, heq, hl₁, hpa, hupd⟩ := ih a h
      refine ⟨x :: l₁, l₂, by simp [heq], ?_, hpa, ?_⟩
      · intro z hz
        rcases List.mem_cons.mp hz with h' | h'
        · rw [h']; exact Bool.eq_false_iff.mpr hp
        · exact hl₁ z h'
      · simp [updateFirst, hp, hupd]

theorem updateFirst_nomatch {α : Type} (p : α → Bool) (f : α → α) :
    ∀ (l : List α), (∀ x ∈ l, p x = false) → updateFirst p f l = l := by
  intro l
  induction l with
  | nil => intro _; rfl
  | cons x xs ih =>
    intro h
    have hx : p x = false := h x (List.mem_cons_self _ _)
    simp [updateFirst, hx, ih (fun z hz => h z (List.mem_cons_of_mem _ hz))]

theorem filter_middle {α : Type} (p : α → Bool) (l₁ l₂ : List α) (b : α)
    (h₁ : ∀ x ∈ l₁, p x = false) (hb : p b = true) :
    (l₁ ++ b :: l₂).filter p = b :: l₂.filter p := by
  rw [List.filter_append, List.filter_eq_nil.mpr (by
    intro x hx
    rw [h₁ x hx]
    exact Bool.false_ne_true), List.filter_cons_of_pos hb, List.nil_append]

theorem head_filter_pred {α : Type} (p : α → Bool) (l : List α) (a : α)
    (h : (l.filter p).head? = some a) : p a = true := by
  have hmem : a ∈ l.filter p := by
    cases hl : l.filter p with
    | nil => rw [hl] at h; simp at h
    | cons x xs =>
      rw [hl] at h
      simp only [List.head?_cons, Option.some.injEq] at h
      rw [← h]
      exact List.mem_cons_self _ _
  exact (List.mem_filter.mp hmem).2

theorem updateFirst_head_filter {α : Type} (p : α → Bool) (f : α → α) (l : List α) (a : α)
    (h : (l.filter p).head? = some a) (hfa : p (f a) = true) :
    ((updateFirst p f l).filter p).head? = some (f a) := by
  obtain ⟨l₁, l₂, _, hl₁, _, hupd⟩ := updateFirst_decomp p f l a h
  rw [hupd, filter_middle p l₁ l₂ (f a) hl₁ hfa]
  rfl

/-! ## Lemmas about the reconciliation engine -/

theorem normalize_position_mem (raw : Option String) :
    normalize_position raw = "general labor" ∨
    normalize_position raw = "forklift driver" := by
  cases raw with
  | none => left; rfl
  | some s =>
    simp only [normalize_position]
    split
    · right; rfl
    · left; rfl

/-- Resolving the base rate of a normalized position never raises: the
override wins when given, and both canonical positions are in the rate table. -/
theorem base_rate_with_override_ok (position : Option String) (ov : Option ℚ) :
    ∃ b, get_base_rate_with_override (normalize_position position) ov = Except.ok b := by
  cases ov with
  | some v => exact ⟨v, rfl⟩
  | none =>
    rcases normalize_position_mem position with h | h
    · exact ⟨16, by rw [get_base_rate_with_override, h]; rfl⟩
    · exact ⟨18, by rw [get_base_rate_with_override, h]; rfl⟩

theorem ensure_worker_row_frame (t : Tables) (w : String) :
    (ensure_worker_row t w).wage_rates = t.wage_rates ∧
    (ensure_worker_row t w).timesheet_entries = t.timesheet_entries ∧
    (ensure_worker_row t w).agencies = t.agencies ∧
    (ensure_worker_row t w).agency_markups = t.agency_markups := by
  unfold ensure_worker_row
  split <;> exact ⟨rfl, rfl, rfl, rfl⟩

/-- When the worker has at least one timesheet entry with a non-null agency,
`get_worker_current_agency` returns the agency of a latest such entry. -/
theorem current_agency_from_ts (t : Tables) (w : String)
    (hts : ∃ e ∈ t.timesheet_entries, e.worker_id = w ∧ e.agency.isSome = true) :
    ∃ e ∈ t.timesheet_entries, e.worker_id = w ∧ e.agency.isSome = true ∧
      get_worker_current_agency t w = e.agency ∧
      ∀ e' ∈ t.timesheet_entries, e'.worker_id = w → e'.agency.isSome = true →
        e'.date ≤ e.date := by
  obtain ⟨e, he, hw, hag⟩ := hts
  have hmem : e ∈ t.timesheet_entries.filter
      (fun x => decide (x.worker_id = w) && x.agency.isSome) := by
    rw [List.mem_filter]
    exact ⟨he, by simp [hw, hag]⟩
  have hne : t.timesheet_entries.filter
      (fun x => decide (x.worker_id = w) && x.agency.isSome) ≠ [] :=
    List.ne_nil_of_mem hmem
  obtain ⟨emax, hmax⟩ := firstMaxBy_isSome (fun x => x.date) _ hne
  obtain ⟨hmaxmem, hmaxge, _⟩ := firstMaxBy_spec (fun x => x.date) (fun _ => 0) _ emax hmax
  rw [List.mem_filter] at hmaxmem
  obtain ⟨hmaxin, hmaxp⟩ := hmaxmem
  have hmaxw : emax.worker_id = w := by
    have := (Bool.and_eq_true _ _).mp hmaxp
    simpa using this.1
  have hmaxag : emax.agency.isSome = true := ((Bool.and_eq_true _ _).mp hmaxp).2
  refine ⟨emax, hmaxin, hmaxw, hmaxag, ?_, ?_⟩
  · unfold get_worker_current_agency
    rw [hmax]
  · intro e' he' hw' hag'
    exact hmaxge e' (by rw [List.mem_filter]; exact ⟨he', by simp [hw', hag']⟩)

/-- When the worker has at least one timesheet entry, `get_worker_hire_date`
returns the date of an earliest one. -/
theorem hire_date_from_ts (t : Tables) (today : Date) (w : String)
    (hts : ∃ e ∈ t.timesheet_entries, e.worker_id = w) :
    ∃ e0 ∈ t.timesheet_entries, e0.worker_id = w ∧
      get_worker_hire_date t today w = e0.date ∧
      ∀ e' ∈ t.timesheet_entries, e'.worker_id = w → e0.date ≤ e'.date := by
  obtain ⟨e, he, hw⟩ := hts
  have hmem : e ∈ t.timesheet_entries.filter (fun x => decide (x.worker_id = w)) := by
    rw [List.mem_filter]
    exact ⟨he, by simp [hw]⟩
  have hne : t.timesheet_entries.filter (fun x => decide (x.worker_id = w)) ≠ [] :=
    List.ne_nil_of_mem hmem
  obtain ⟨e0, h0⟩ := firstMinBy_isSome (fun x => x.date) _ hne
  obtain ⟨h0mem, h0le⟩ := firstMinBy_spec (fun x => x.date) _ e0 h0
  rw [List.mem_filter] at h0mem
  refine ⟨e0, h0mem.1, by simpa using h0mem.2, ?_, ?_⟩
  · unfold get_worker_hire_date
    rw [h0]
  · intro e' he' hw'
    exact h0le e' (by rw [List.mem_filter]; exact ⟨he', by simp [hw']⟩)

/-! ## Claim theorems -/

/-- C10: for every timesheet row, the daily hours computed by
`process_timesheet` equal the clock-out minus clock-in duration (after the
overnight correction adding one day when time_out is strictly before time_in)
minus the lunch break in hours, clamped below at zero: the result is never
negative, even when the lunch deduction meets or exceeds the worked duration. -/
theorem daily_hours_clamped (row : HoursRow) :
    calculate_daily_hours (overnight_adjust row) =
      max 0 (((row.time_out - row.time_in) + (if row.time_out < row.time_in then 24 else 0))
        - row.lunch_minutes.getD 30 / 60) ∧
    0 ≤ calculate_daily_hours (overnight_adjust row) ∧
    (((row.time_out - row.time_in) + (if row.time_out < row.time_in then 24 else 0))
        ≤ row.lunch_minutes.getD 30 / 60 →
      calculate_daily_hours (overnight_adjust row) = 0) ∧
    (row.lunch_minutes.getD 30 / 60 ≤
        ((row.time_out - row.time_in) + (if row.time_out < row.time_in then 24 else 0)) →
      calculate_daily_hours (overnight_adjust row) =
        ((row.time_out - row.time_in) + (if row.time_out < row.time_in then 24 else 0))
          - row.lunch_minutes.getD 30 / 60) := by
  have hform : calculate_daily_hours (overnight_adjust row) =
      max 0 (((row.time_out - row.time_in) + (if row.time_out < row.time_in then 24 else 0))
        - row.lunch_minutes.getD 30 / 60) := by
    unfold calculate_daily_hours overnight_adjust
    split
    · simp only
      ring_nf
    · simp only
      ring_nf
  refine ⟨hform, ?_, ?_, ?_⟩
  · rw [hform]; exact le_max_left _ _
  · intro h
    rw [hform]
    exact max_eq_left (sub_nonpos.mpr h)
  · intro h
    rw [hform]
    exact max_eq_right (sub_nonneg.mpr h)

/-- Witness for C10 at a concrete input: a 15-minute shift with a 30-minute
lunch clamps to zero rather than going negative. -/
theorem daily_hours_clamped_witness :
    calculate_daily_hours (overnight_adjust ⟨9, 9 + 1/4, some 30⟩) = 0 ∧
    0 ≤ calculate_daily_hours (overnight_adjust ⟨9, 9 + 1/4, some 30⟩) := by
  have h := daily_hours_clamped ⟨9, 9 + 1/4, some 30⟩
  exact ⟨h.2.2.1 (by norm_num), h.2.1⟩

/-- C8: `normalize_position` is total — every input, including unrecognized or
missing labels, maps into the fixed canonical set, with unrecognized input
falling back to general labor; `get_base_rate_for_position` returns 16.00 for
general labor and 18.00 for forklift driver and fails (UnknownPositionError)
exactly on a label outside the known set, so it never fails after
normalization. -/
theorem position_normalization_total :
    (∀ raw : Option String,
        normalize_position raw = "general labor" ∨
        normalize_position raw = "forklift driver") ∧
    (∀ raw : Option String, normalize_position raw ≠ "forklift driver" →
        normalize_position raw = "general labor") ∧
    get_base_rate_for_position "general labor" = some 16 ∧
    get_base_rate_for_position "forklift driver" = some 18 ∧
    (∀ p : String, get_base_rate_for_position p = none ↔
        (p ≠ "general labor" ∧ p ≠ "forklift driver")) ∧
    (∀ raw : Option String, ∃ r : ℚ,
        get_base_rate_for_position (normalize_position raw) = some r) := by
  have hmem := normalize_position_mem
  refine ⟨hmem, ?_, rfl, rfl, ?_, ?_⟩
  · intro raw h
    rcases hmem raw with h' | h'
    · exact h'
    · exact absurd h' h
  · intro p
    unfold get_base_rate_for_position
    constructor
    · intro h
      constructor
      · intro hp; rw [hp] at h; simp at h
      · intro hp; rw [hp] at h; simp at h
    · intro ⟨h1, h2⟩
      rw [if_neg h1, if_neg h2]
  · intro raw
    rcases hmem raw with h | h <;> rw [h]
    · exact ⟨16, rfl⟩
    · exact ⟨18, rfl⟩

theorem get_agency_markup_for_date_eq (t : Tables) (today : Date) (name : String) (d : Date) :
    get_agency_markup_for_date t today name (some d) =
      match (t.agencies.filter (fun a => decide (a.name = name))).head? with
      | none => 0
      | some agency =>
        match firstMaxBy (fun m => m.effective_date)
            (t.agency_markups.filter
              (fun m => decide (m.agency_id = agency.id) && decide (m.effective_date ≤ d))) with
        | none => 0
        | some markup_obj => markup_obj.markup := rfl

/-- C5: `get_agency_markup_for_date` (the same logic in src/app/utils.py and
src/wage_rate_restructure.py) defaults a missing date argument to today,
returns 0.0 when the agency name matches no Agency row, 0.0 when no
AgencyMarkup row for the agency has effective_date on or before the query
date, and otherwise the markup of a qualifying row of greatest
effective_date; in particular, for rows {0.20 effective 2023-01-01,
0.25 effective 2023-06-01}, querying 2023-03-01 yields 0.20, 2023-07-01
yields 0.25, and 2022-01-01 yields 0.0 (dates encoded by order-preserving
day numbers 1096, 1247, 1155, 1277, 731). -/
theorem agency_markup_resolution :
    (∀ (t : Tables) (today : Date) (name : String),
      get_agency_markup_for_date t today name none =
        get_agency_markup_for_date t today name (some today)) ∧
    (∀ (t : Tables) (today : Date) (name : String) (d : Date),
      (t.agencies.filter (fun a => decide (a.name = name))).head? = none →
      get_agency_markup_for_date t today name (some d) = 0) ∧
    (∀ (t : Tables) (today : Date) (name : String) (d : Date) (ag : Agency),
      (t.agencies.filter (fun a => decide (a.name = name))).head? = some ag →
      (t.agency_markups.filter
          (fun m => decide (m.agency_id = ag.id) && decide (m.effective_date ≤ d))) = [] →
      get_agency_markup_for_date t today name (some d) = 0) ∧
    (∀ (t : Tables) (today : Date) (name : String) (d : Date) (ag : Agency),
      (t.agencies.filter (fun a => decide (a.name = name))).head? = some ag →
      (t.agency_markups.filter
          (fun m => decide (m.agency_id = ag.id) && decide (m.effective_date ≤ d))) ≠ [] →
      ∃ m ∈ t.agency_markups.filter
          (fun m => decide (m.agency_id = ag.id) && decide (m.effective_date ≤ d)),
        get_agency_markup_for_date t today name (some d) = m.markup ∧
        ∀ m' ∈ t.agency_markups.filter
            (fun m => decide (m.agency_id = ag.id) && decide (m.effective_date ≤ d)),
          m'.effective_date ≤ m.effective_date) ∧
    (get_agency_markup_for_date exMarkupTables 2000 "X" (some 1155) = 1/5 ∧
     get_agency_markup_for_date exMarkupTables 2000 "X" (some 1277) = 1/4 ∧
     get_agency_markup_for_date exMarkupTables 2000 "X" (some 731) = 0) := by
  have hagcase : ∀ (t : Tables) (today : Date) (name : String) (d : Date) (ag : Agency),
      (t.agencies.filter (fun a => decide (a.name = name))).head? = some ag →
      get_agency_markup_for_date t today name (some d) =
        match firstMaxBy (fun m => m.effective_date)
            (t.agency_markups.filter
              (fun m => decide (m.agency_id = ag.id) && decide (m.effective_date ≤ d))) with
        | none => 0
        | some markup_obj => markup_obj.markup := by
    intro t today name d ag hag
    rw [get_agency_markup_for_date_eq, hag]
  refine ⟨?_, ?_, ?_, ?_, ?_⟩
  · intro t today name
    rfl
  · intro t today name d h
    rw [get_agency_markup_for_date_eq, h]
  · intro t today name d ag hag hq
    rw [hagcase t today name d ag hag, hq]
    rfl
  · intro t today name d ag hag hq
    obtain ⟨m, hm⟩ := firstMaxBy_isSome (fun m => m.effective_date) _ hq
    obtain ⟨hmem, hmax, _⟩ :=
      firstMaxBy_spec (fun m => m.effective_date) (fun _ => 0) _ m hm
    refine ⟨m, hmem, ?_, hmax⟩
    rw [hagcase t today name d ag hag, hm]
  · exact ⟨by decide, by decide, by decide⟩

/-- Witness for C5 at concrete inputs: an unregistered agency resolves to 0.0,
and an absent date argument queries as of today. -/
theorem agency_markup_resolution_witness :
    get_agency_markup_for_date ⟨[], [], [], [], []⟩ 0 "X" (some 0) = 0 ∧
    get_agency_markup_for_date ⟨[], [], [], [], []⟩ 0 "X" none =
      get_agency_markup_for_date ⟨[], [], [], [], []⟩ 0 "X" (some 0) :=
  ⟨agency_markup_resolution.2.1 ⟨[], [], [], [], []⟩ 0 "X" 0 (by decide),
   agency_markup_resolution.1 ⟨[], [], [], [], []⟩ 0 "X"⟩

/-- C6 counterexample: the claim's scoring and tie-breaking rules do not match
`select_best_wage_entry`. (i) Two fully-populated rows with equal scores
presented as [id 7, id 5] keep id 7 — ties go to list position, not to the
lowest row id. (ii) A row whose only datum is a future effective date earns
a recency bonus above 5 (score about 20.01) and beats a row that the claim's
at-most-5-bonus scoring ranks strictly higher. (iii) A row whose role is the
empty string earns no role points (truthiness, not non-nullness) and loses to
a row the claim's scoring ranks strictly lower. -/
theorem select_best_wage_entry_cex :
    (wage_entry_score 365 cexTie7 = wage_entry_score 365 cexTie5 ∧
     select_best_wage_entry 365 [cexTie7, cexTie5] = some cexTie7 ∧ cexTie7.id ≠ 5) ∧
    (recency_bonus 0 cexFutureA > 5 ∧
     spec_wage_entry_score 0 cexFutureA < spec_wage_entry_score 0 cexFutureB ∧
     select_best_wage_entry 0 [cexFutureB, cexFutureA] = some cexFutureA) ∧
    (spec_wage_entry_score 0 cexEmptyRoleD < spec_wage_entry_score 0 cexEmptyRoleC ∧
     select_best_wage_entry 0 [cexEmptyRoleC, cexEmptyRoleD] = some cexEmptyRoleD) := by
  refine ⟨⟨?_, ?_, ?_⟩, ⟨?_, ?_, ?_⟩, ⟨?_, ?_⟩⟩ <;> decide

/-- C6 (amended): `select_best_wage_entry` scores a row 10 points for each of
a truthy (non-null, non-empty) role and a non-null base_rate, markup and
effective_date, plus the recency bonus max(0, 365 - days)/365*5 — at most 5
and floored at 0 for dates up to a year old or older, but above 5 for future
effective dates — and returns the first row in input order among those of
maximal score; when the rows are presented in ascending id order (as the
duplicate-cleanup pass reads them from the table) that is the lowest id among
the maximal rows, and on the concrete 30/40/40 example with the tied pair at
ids 5 and 7 the row with id 5 is kept and the cleanup deletes the others. -/
theorem select_best_wage_entry_spec :
    (∀ (today : Date) (entries : List WageRate) (best : WageRate),
        select_best_wage_entry today entries = some best →
        best ∈ entries ∧
        ∀ e ∈ entries, wage_entry_score today e ≤ wage_entry_score today best) ∧
    (∀ (today : Date) (entries : List WageRate) (best : WageRate),
        entries.Pairwise (fun u v => u.id < v.id) →
        select_best_wage_entry today entries = some best →
        ∀ e ∈ entries, wage_entry_score today e = wage_entry_score today best →
          best.id ≤ e.id) ∧
    (∀ (today : Date) (e : WageRate) (d : Date), e.effective_date = some d →
        (d ≤ today → recency_bonus today e ≤ 5) ∧
        (365 ≤ today - d → recency_bonus today e = 0) ∧
        (0 ≤ 365 - (today - d) →
          recency_bonus today e = ((365 - (today - d) : Int) : ℚ) / 365 * 5)) ∧
    (wage_entry_score 365 exDup30 = 30 ∧ wage_entry_score 365 exDup40a = 40 ∧
     wage_entry_score 365 exDup40b = 40 ∧
     select_best_wage_entry 365 [exDup30, exDup40a, exDup40b] = some exDup40a ∧
     (clean_duplicate_entries exDupTables 365 false ⟨0, 0, 0, 0, []⟩).1.wage_rates
        = [exDup40a]) := by
  have hsel : ∀ (today : Date) (entries : List WageRate) (best : WageRate),
      select_best_wage_entry today entries = some best →
      firstMaxBy (wage_entry_score today) entries = some best := by
    intro today entries best h
    cases entries with
    | nil => exact h
    | cons x xs =>
      cases xs with
      | nil =>
        simp only [select_best_wage_entry, Option.some.injEq] at h
        subst h
        rfl
      | cons y ys => exact h
  refine ⟨?_, ?_, ?_, ?_⟩
  · intro today entries best h
    obtain ⟨hmem, hmax, _⟩ :=
      firstMaxBy_spec (wage_entry_score today) (fun r => r.id) entries best (hsel _ _ _ h)
    exact ⟨hmem, hmax⟩
  · intro today entries best hp h
    obtain ⟨_, _, hfirst⟩ :=
      firstMaxBy_spec (wage_entry_score today) (fun r => r.id) entries best (hsel _ _ _ h)
    exact hfirst hp
  · intro today e d hd
    have hb : recency_bonus today e = ((max 0 (365 - (today - d)) : Int) : ℚ) / 365 * 5 := by
      unfold recency_bonus
      rw [hd]
    refine ⟨?_, ?_, ?_⟩
    · intro hle
      rw [hb]
      have h1 : (max 0 (365 - (today - d)) : Int) ≤ 365 :=
        max_le (by norm_num) (by linarith)
      have h2 : ((max 0 (365 - (today - d)) : Int) : ℚ) ≤ 365 := by exact_mod_cast h1
      have h3 : (0 : ℚ) ≤ ((max 0 (365 - (today - d)) : Int) : ℚ) := by
        exact_mod_cast le_max_left 0 (365 - (today - d))
      linarith
    · intro hge
      rw [hb]
      have h1 : (max 0 (365 - (today - d)) : Int) = 0 := max_eq_left (by linarith)
      rw [h1]
      norm_num
    · intro hnn
      rw [hb]
      have h1 : (max 0 (365 - (today - d)) : Int) = 365 - (today - d) :=
        max_eq_right hnn
      rw [h1]
  · refine ⟨by decide, by decide, by decide, by decide, by decide⟩

/-- Witness for C6 (amended) at a concrete input: on two ascending-id rows
with distinct scores the selection is a member of maximal score, and for an
effective date 100 days back the recency bonus stays at most 5. -/
theorem select_best_wage_entry_spec_witness :
    ((⟨1, "w", some 16, some "general labor", none, some (1/4), some 0⟩ : WageRate) ∈
        [(⟨1, "w", some 16, some "general labor", none, some (1/4), some 0⟩ : WageRate),
         ⟨2, "w", none, none, none, none, none⟩] ∧
     ∀ e ∈ [(⟨1, "w", some 16, some "general labor", none, some (1/4), some 0⟩ : WageRate),
         ⟨2, "w", none, none, none, none, none⟩],
       wage_entry_score 100 e ≤
         wage_entry_score 100 ⟨1, "w", some 16, some "general labor", none, some (1/4), some 0⟩) ∧
    recency_bonus 100 ⟨1, "w", none, none, none, none, some 0⟩ ≤ 5 := by
  constructor
  · exact select_best_wage_entry_spec.1 100 _ _ (by decide)
  · exact (select_best_wage_entry_spec.2.2.1 100 ⟨1, "w", none, none, none, none, some 0⟩ 0
      rfl).1 (by norm_num)

/-- Execution of `ensure_worker_wage_rate` when the agency cannot be resolved:
the call raises before any mutation. -/
theorem ensure_agency_error_case (s : Session) (today : Date) (w : String)
    (position : Option String) (agency_name : Option String) (eff : Option Date)
    (ov : Option ℚ)
    (ha : (if strTruthy agency_name then agency_name
            else get_worker_current_agency s.pending w) = none) :
    ensure_worker_wage_rate s today w position agency_name eff ov =
      (s, Except.error ("Cannot determine agency for worker " ++ w)) := by
  simp only [ensure_worker_wage_rate]
  rw [ha]

/-- Execution of `ensure_worker_wage_rate` when the resolved agency is the
empty string (falsy in the source): the call raises before any mutation. -/
theorem ensure_agency_empty_case (s : Session) (today : Date) (w : String)
    (position : Option String) (agency_name : Option String) (eff : Option Date)
    (ov : Option ℚ)
    (ha : (if strTruthy agency_name then agency_name
            else get_worker_current_agency s.pending w) = some "") :
    ensure_worker_wage_rate s today w position agency_name eff ov =
      (s, Except.error ("Cannot determine agency for worker " ++ w)) := by
  simp only [ensure_worker_wage_rate]
  rw [ha]
  dsimp only
  rw [if_pos rfl]

/-- Execution of `ensure_worker_wage_rate` on the update path: the first
wage-rate row of the worker is replaced in place by the reconciled row and the
session commits. -/
theorem ensure_update_case (s : Session) (today : Date) (w : String)
    (position : Option String) (agency_name : Option String) (eff : Option Date)
    (ov : Option ℚ) (a : String) (b : ℚ) (ew upd : WageRate) (mo : Bool)
    (ha : (if strTruthy agency_name then agency_name
            else get_worker_current_agency s.pending w) = some a)
    (hane : ¬(a = ""))
    (hb : get_base_rate_with_override (normalize_position position) ov = Except.ok b)
    (hew : ((ensure_worker_row s.pending w).wage_rates.filter
        (fun x => decide (x.worker_id = w))).head? = some ew)
    (hmo : detect_manual_override ew = Except.ok mo)
    (hU : upd = { ew with
      role := some (normalize_position position)
      agency := some a
      markup := some (get_agency_markup_for_date s.pending today a (some today))
      effective_date := some (get_worker_hire_date s.pending today w)
      base_rate := if ov.isSome then some b else if mo then ew.base_rate else some b }) :
    ensure_worker_wage_rate s today w position agency_name eff ov =
      (Session.commit ⟨s.committed, { ensure_worker_row s.pending w with wage_rates := updateFirst (fun x => decide (x.worker_id = w)) (fun _ => upd) (ensure_worker_row s.pending w).wage_rates }⟩, Except.ok upd) := by
  subst hU
  simp only [ensure_worker_wage_rate]
  rw [ha]
  dsimp only
  rw [if_neg hane, hb]
  dsimp only
  rw [hew]
  dsimp only
  rw [hmo]

/-- Execution of `ensure_worker_wage_rate` on the creation path: a new
wage-rate row is appended and the session commits. -/
theorem ensure_create_case (s : Session) (today : Date) (w : String)
    (position : Option String) (agency_name : Option String) (eff : Option Date)
    (ov : Option ℚ) (a : String) (b : ℚ) (nw : WageRate)
    (ha : (if strTruthy agency_name then agency_name
            else get_worker_current_agency s.pending w) = some a)
    (hane : ¬(a = ""))
    (hb : get_base_rate_with_override (normalize_position position) ov = Except.ok b)
    (hew : ((ensure_worker_row s.pending w).wage_rates.filter
        (fun x => decide (x.worker_id = w))).head? = none)
    (hN : nw = ⟨freshId ((ensure_worker_row s.pending w).wage_rates.map (fun r => r.id)), w, some b, some (normalize_position position), some a, some (get_agency_markup_for_date s.pending today a (some today)), some (get_worker_hire_date s.pending today w)⟩) :
    ensure_worker_wage_rate s today w position agency_name eff ov =
      (Session.commit ⟨s.committed, { ensure_worker_row s.pending w with wage_rates := (ensure_worker_row s.pending w).wage_rates ++ [nw] }⟩, Except.ok nw) := by
  subst hN
  simp only [ensure_worker_wage_rate]
  rw [ha]
  dsimp only
  rw [if_neg hane, hb]
  dsimp only
  rw [hew]

/-- Execution of `ensure_worker_wage_rate` when the manual-override detection
raises on an unknown stored role: the worker row may have been created but
nothing is committed. -/
theorem ensure_override_error_case (s : Session) (today : Date) (w : String)
    (position : Option String) (agency_name : Option String) (eff : Option Date)
    (ov : Option ℚ) (a : String) (b : ℚ) (ew : WageRate) (e : String)
    (ha : (if strTruthy agency_name then agency_name
            else get_worker_current_agency s.pending w) = some a)
    (hane : ¬(a = ""))
    (hb : get_base_rate_with_override (normalize_position position) ov = Except.ok b)
    (hew : ((ensure_worker_row s.pending w).wage_rates.filter
        (fun x => decide (x.worker_id = w))).head? = some ew)
    (hmo : detect_manual_override ew = Except.error e) :
    ensure_worker_wage_rate s today w position agency_name eff ov =
      (⟨s.committed, ensure_worker_row s.pending w⟩, Except.error e) := by
  simp only [ensure_worker_wage_rate]
  rw [ha]
  dsimp only
  rw [if_neg hane, hb]
  dsimp only
  rw [hew]
  dsimp only
  rw [hmo]

/-- C1 counterexample: with two pre-existing WageRate rows for the worker
(legacy duplicates), the reconcile call succeeds but leaves two rows — it only
updates the first row keyed by worker_id, so "exactly one WageRate row exists
after the call" fails as universally stated. -/
theorem ensure_preexisting_duplicates_persist :
    (ensure_worker_wage_rate ⟨cexDupTables, cexDupTables⟩ 0 "w" (some "general labor")
        none none none).2 =
      Except.ok ⟨1, "w", some 16, some "general labor", some "A", some 0, some 0⟩ ∧
    ((ensure_worker_wage_rate ⟨cexDupTables, cexDupTables⟩ 0 "w" (some "general labor")
        none none none).1.pending.wage_rates.filter
      (fun x => decide (x.worker_id = "w"))).length = 2 := by
  exact ⟨by decide, by decide⟩

/-- C1 (amended): after a successful reconcile call (`ensure_worker_wage_rate`
with no explicit agency), for a worker with at least one timesheet entry
carrying a non-null agency and — as amended — at most one pre-existing
WageRate row, exactly one WageRate row remains for the worker: the returned
row, updated in place (same id) when a row existed, carrying the agency of a
latest non-null-agency timesheet entry, the earliest timesheet date as
effective date, and the markup resolved for (agency, today). -/
theorem ensure_single_row_after_reconcile
    (s : Session) (today : Date) (w : String) (position : Option String)
    (eff : Option Date) (ov : Option ℚ) (s' : Session) (r : WageRate)
    (hcall : ensure_worker_wage_rate s today w position none eff ov = (s', Except.ok r))
    (hts : ∃ e ∈ s.pending.timesheet_entries, e.worker_id = w ∧ e.agency.isSome = true)
    (hone : (s.pending.wage_rates.filter (fun x => decide (x.worker_id = w))).length ≤ 1) :
    s'.pending.wage_rates.filter (fun x => decide (x.worker_id = w)) = [r] ∧
    r.worker_id = w ∧
    (∃ e ∈ s.pending.timesheet_entries, e.worker_id = w ∧ e.agency.isSome = true ∧
      r.agency = e.agency ∧
      ∀ e' ∈ s.pending.timesheet_entries, e'.worker_id = w → e'.agency.isSome = true →
        e'.date ≤ e.date) ∧
    (∃ e0 ∈ s.pending.timesheet_entries, e0.worker_id = w ∧
      r.effective_date = some e0.date ∧
      ∀ e' ∈ s.pending.timesheet_entries, e'.worker_id = w → e0.date ≤ e'.date) ∧
    (∃ a, r.agency = some a ∧
      r.markup = some (get_agency_markup_for_date s.pending today a (some today))) ∧
    (∀ old, s.pending.wage_rates.filter (fun x => decide (x.worker_id = w)) = [old] →
      r.id = old.id) := by
  obtain ⟨emax, hein, hemw, heag, heq, hemax⟩ := current_agency_from_ts s.pending w hts
  obtain ⟨a, haval⟩ := Option.isSome_iff_exists.mp heag
  have hres : (if strTruthy (none : Option String) then (none : Option String)
      else get_worker_current_agency s.pending w) = some a := by
    have h0 : (if strTruthy (none : Option String) then (none : Option String)
        else get_worker_current_agency s.pending w) =
        get_worker_current_agency s.pending w := rfl
    rw [h0, heq, haval]
  obtain ⟨e0, h0in, h0w, h0eq, h0min⟩ := hire_date_from_ts s.pending today w
    (by obtain ⟨e, he, hw, _⟩ := hts; exact ⟨e, he, hw⟩)
  by_cases hae : a = ""
  · rw [hae] at hres
    rw [ensure_agency_empty_case s today w position none eff ov hres] at hcall
    simp [Prod.ext_iff] at hcall
  obtain ⟨b, hb⟩ := base_rate_with_override_ok position ov
  have hwrframe := (ensure_worker_row_frame s.pending w).1
  cases hex : ((ensure_worker_row s.pending w).wage_rates.filter
      (fun x => decide (x.worker_id = w))).head? with
  | some ew =>
    cases hdet : detect_manual_override ew with
    | error e =>
      rw [ensure_override_error_case s today w position none eff ov a b ew e hres hae hb hex
        hdet] at hcall
      simp [Prod.ext_iff] at hcall
    | ok mo =>
      rw [ensure_update_case s today w position none eff ov a b ew _ mo hres hae hb hex hdet
        rfl] at hcall
      have hs' : s' = Session.commit ⟨s.committed, { ensure_worker_row s.pending w with wage_rates := updateFirst (fun x => decide (x.worker_id = w)) (fun _ => { ew with role := some (normalize_position position), agency := some a, markup := some (get_agency_markup_for_date s.pending today a (some today)), effective_date := some (get_worker_hire_date s.pending today w), base_rate := if ov.isSome then some b else if mo then ew.base_rate else some b }) (ensure_worker_row s.pending w).wage_rates }⟩ :=
        (congrArg Prod.fst hcall).symm
      have hrr : r = { ew with role := some (normalize_position position), agency := some a, markup := some (get_agency_markup_for_date s.pending today a (some today)), effective_date := some (get_worker_hire_date s.pending today w), base_rate := if ov.isSome then some b else if mo then ew.base_rate else some b } := by
        have h2 := congrArg Prod.snd hcall
        simpa using h2.symm
      rw [← hrr] at hs'
      rw [hwrframe] at hex hs'
      obtain ⟨l₁, l₂, hldec, hl₁, hpew, hupd⟩ :=
        updateFirst_decomp (fun x => decide (x.worker_id = w)) (fun _ => r)
          s.pending.wage_rates ew hex
      have heww : ew.worker_id = w := of_decide_eq_true hpew
      have hrw : r.worker_id = w := by rw [hrr]; exact heww
      have hPr : decide (r.worker_id = w) = true := decide_eq_true hrw
      have hfilterS : s.pending.wage_rates.filter (fun x => decide (x.worker_id = w)) =
          ew :: l₂.filter (fun x => decide (x.worker_id = w)) := by
        rw [hldec]
        exact filter_middle _ l₁ l₂ ew hl₁ hpew
      have hl₂ : l₂.filter (fun x => decide (x.worker_id = w)) = [] := by
        rw [hfilterS] at hone
        simp only [List.length_cons] at hone
        exact List.length_eq_zero.mp (by omega)
      have hnewlist : s'.pending.wage_rates = l₁ ++ r :: l₂ := by
        rw [hs']
        exact hupd
      have hconc1 : s'.pending.wage_rates.filter (fun x => decide (x.worker_id = w)) = [r] := by
        rw [hnewlist, filter_middle _ l₁ l₂ r hl₁ hPr, hl₂]
      refine ⟨hconc1, hrw, ⟨emax, hein, hemw, heag, ?_, hemax⟩,
        ⟨e0, h0in, h0w, ?_, h0min⟩, ⟨a, ?_, ?_⟩, ?_⟩
      · rw [hrr]
        exact haval.symm
      · rw [hrr]
        show some (get_worker_hire_date s.pending today w) = some e0.date
        rw [h0eq]
      · rw [hrr]
      · rw [hrr]
      · intro old hold
        rw [hfilterS, hl₂] at hold
        have hewold : ew = old := by
          injection hold
        rw [hrr, ← hewold]
  | none =>
    rw [ensure_create_case s today w position none eff ov a b _ hres hae hb hex rfl] at hcall
    have hs' : s' = Session.commit ⟨s.committed, { ensure_worker_row s.pending w with wage_rates := (ensure_worker_row s.pending w).wage_rates ++ [⟨freshId ((ensure_worker_row s.pending w).wage_rates.map (fun x => x.id)), w, some b, some (normalize_position position), some a, some (get_agency_markup_for_date s.pending today a (some today)), some (get_worker_hire_date s.pending today w)⟩] }⟩ :=
      (congrArg Prod.fst hcall).symm
    have hrr : r = ⟨freshId ((ensure_worker_row s.pending w).wage_rates.map (fun x => x.id)), w, some b, some (normalize_position position), some a, some (get_agency_markup_for_date s.pending today a (some today)), some (get_worker_hire_date s.pending today w)⟩ := by
      have h2 := congrArg Prod.snd hcall
      simpa using h2.symm
    rw [← hrr] at hs'
    rw [hwrframe] at hex hs'
    have hfempty : s.pending.wage_rates.filter (fun x => decide (x.worker_id = w)) = [] :=
      List.head?_eq_none_iff.mp hex
    have hrw : r.worker_id = w := by rw [hrr]
    have hPr : decide (r.worker_id = w) = true := decide_eq_true hrw
    have hnewlist : s'.pending.wage_rates = s.pending.wage_rates ++ [r] := by
      rw [hs']
      rfl
    have hconc1 : s'.pending.wage_rates.filter (fun x => decide (x.worker_id = w)) = [r] := by
      rw [hnewlist, List.filter_append, hfempty, List.nil_append]
      simp [List.filter_cons, hPr]
    refine ⟨hconc1, hrw, ⟨emax, hein, hemw, heag, ?_, hemax⟩,
      ⟨e0, h0in, h0w, ?_, h0min⟩, ⟨a, ?_, ?_⟩, ?_⟩
    · rw [hrr]
      exact haval.symm
    · rw [hrr]
      show some (get_worker_hire_date s.pending today w) = some e0.date
      rw [h0eq]
    · rw [hrr]
    · rw [hrr]
    · intro old hold
      rw [hfempty] at hold
      exact absurd hold (by simp)

/-- Witness for C1 (amended) at a concrete input: reconciling a fresh worker
with one timesheet entry creates exactly one row. -/
theorem ensure_single_row_after_reconcile_witness :
    (⟨exSingleOut, exSingleOut⟩ : Session).pending.wage_rates.filter
      (fun x => decide (x.worker_id = "w")) = [exSingleRow] ∧
    exSingleRow.worker_id = "w" := by
  have hcall : ensure_worker_wage_rate ⟨exSingleT, exSingleT⟩ 0 "w" (some "general labor")
      none none none = (⟨exSingleOut, exSingleOut⟩, Except.ok exSingleRow) := by decide
  have h := ensure_single_row_after_reconcile ⟨exSingleT, exSingleT⟩ 0 "w"
    (some "general labor") none none ⟨exSingleOut, exSingleOut⟩ exSingleRow hcall
    (by decide) (by decide)
  exact ⟨h.1, h.2.1⟩

/-- Override detection returns true when the stored base rate deviates from
the stored role's standard rate by more than one cent. -/
theorem detect_manual_override_true (ew : WageRate) (bq stdr : ℚ) (rl : String)
    (hbase : ew.base_rate = some bq) (hrole : ew.role = some rl) (hrlne : rl ≠ "")
    (hstd : get_base_rate_for_position rl = some stdr) (hover : |bq - stdr| > 1 / 100) :
    detect_manual_override ew = Except.ok true := by
  unfold detect_manual_override
  rw [hbase, hrole]
  show (if strTruthy (some rl) = true then (match get_base_rate_for_position rl with | none => Except.error "UnknownPositionError" | some standard_rate => Except.ok (decide (|bq - standard_rate| > 1 / 100))) else Except.ok false) = Except.ok true
  rw [if_pos (by simp [strTruthy, hrlne]), hstd]
  show Except.ok (decide (|bq - stdr| > 1 / 100)) = Except.ok true
  rw [decide_eq_true hover]

/-- Execution of `processWageRow` when override detection raises. -/
theorem processWageRow_detect_error (today : Date) (dry : Bool) (t : Tables)
    (ch : RestructureChanges) (wid : Nat) (wage : WageRate) (e : String)
    (hdet : detect_manual_override wage = Except.error e) :
    processWageRow today dry t ch wid wage =
      (t, { ch with errors := ch.errors ++ [restructureErrMsg wage.worker_id e] }) := by
  unfold processWageRow
  dsimp only
  rw [hdet]

/-- Execution of `processWageRow` when the correct-value calculation raises. -/
theorem processWageRow_calc_error (today : Date) (dry : Bool) (t : Tables)
    (ch : RestructureChanges) (wid : Nat) (wage : WageRate) (mo : Bool) (e : String)
    (hdet : detect_manual_override wage = Except.ok mo)
    (hcalc : calculate_correct_wage_rate t today wage.worker_id wage.role
      (get_worker_current_agency t wage.worker_id) none
      (if mo then wage.base_rate else none) true = Except.error e) :
    processWageRow today dry t ch wid wage =
      (t, { ch with errors := ch.errors ++ [restructureErrMsg wage.worker_id e] }) := by
  unfold processWageRow
  dsimp only
  rw [hdet]
  dsimp only
  rw [hcalc]

/-- Execution of `processWageRow` when both override detection and the
correct-value calculation succeed: the row is rewritten in place exactly when
an update is needed and the run is not a dry run. -/
theorem processWageRow_calc_ok (today : Date) (dry : Bool) (t : Tables)
    (ch : RestructureChanges) (wid : Nat) (wage : WageRate) (mo : Bool)
    (correct : CorrectValues)
    (hdet : detect_manual_override wage = Except.ok mo)
    (hcalc : calculate_correct_wage_rate t today wage.worker_id wage.role
      (get_worker_current_agency t wage.worker_id) none
      (if mo then wage.base_rate else none) true = Except.ok correct) :
    processWageRow today dry t ch wid wage =
      (if restructure_needs_update wage (get_worker_current_agency t wage.worker_id) (get_worker_hire_date t today wage.worker_id) mo correct && !dry then ({ t with wage_rates := updateFirst (fun r => decide (r.id = wid)) (fun _ => apply_wage_update wage (get_worker_current_agency t wage.worker_id) (get_worker_hire_date t today wage.worker_id) mo correct) t.wage_rates }, { ch with entries_updated := ch.entries_updated + 1, workers_processed := ch.workers_processed + 1 }) else (t, { ch with workers_processed := ch.workers_processed + 1 })) := by
  unfold processWageRow
  dsimp only
  rw [hdet]
  dsimp only
  rw [hcalc]

/-- C4: a manual override — an existing row whose non-null base rate deviates
from the standard rate of its non-null role by more than one cent — survives
reconciliation without an explicit override argument: the row returned by
`ensure_worker_wage_rate` keeps the old base rate, and the restructure tool's
per-row update keeps the stored base rate of such a row (the first row with
that id still carries it afterwards), while the other fields may be updated. -/
theorem manual_override_preserved :
    (∀ (s : Session) (today : Date) (w : String) (position agency_name : Option String)
        (eff : Option Date) (s' : Session) (r ew : WageRate) (bq stdr : ℚ) (rl : String),
      (s.pending.wage_rates.filter (fun x => decide (x.worker_id = w))).head? = some ew →
      ew.base_rate = some bq → ew.role = some rl → rl ≠ "" →
      get_base_rate_for_position rl = some stdr → |bq - stdr| > 1 / 100 →
      ensure_worker_wage_rate s today w position agency_name eff none = (s', Except.ok r) →
      r.base_rate = some bq) ∧
    (∀ (t : Tables) (today : Date) (dry : Bool) (ch : RestructureChanges) (wid : Nat)
        (wage : WageRate) (bq stdr : ℚ) (rl : String),
      (t.wage_rates.filter (fun x => decide (x.id = wid))).head? = some wage →
      wage.base_rate = some bq → wage.role = some rl → rl ≠ "" →
      get_base_rate_for_position rl = some stdr → |bq - stdr| > 1 / 100 →
      ∃ wage', ((processWage today dry (t, ch) wid).1.wage_rates.filter
          (fun x => decide (x.id = wid))).head? = some wage' ∧
        wage'.base_rate = some bq) := by
  constructor
  · intro s today w position agency_name eff s' r ew bq stdr rl
      hhead hbase hrole hrlne hstd hover hcall
    have hdet : detect_manual_override ew = Except.ok true :=
      detect_manual_override_true ew bq stdr rl hbase hrole hrlne hstd hover
    have hew' : ((ensure_worker_row s.pending w).wage_rates.filter
        (fun x => decide (x.worker_id = w))).head? = some ew := by
      rw [(ensure_worker_row_frame s.pending w).1]
      exact hhead
    cases hres : (if strTruthy agency_name then agency_name
        else get_worker_current_agency s.pending w) with
    | none =>
      rw [ensure_agency_error_case s today w position agency_name eff none hres] at hcall
      simp [Prod.ext_iff] at hcall
    | some a =>
      by_cases hae : a = ""
      · rw [hae] at hres
        rw [ensure_agency_empty_case s today w position agency_name eff none hres] at hcall
        simp [Prod.ext_iff] at hcall
      obtain ⟨b, hb⟩ := base_rate_with_override_ok position none
      rw [ensure_update_case s today w position agency_name eff none a b ew _ true hres hae
        hb hew' hdet rfl] at hcall
      have hrr : r = { ew with role := some (normalize_position position), agency := some a, markup := some (get_agency_markup_for_date s.pending today a (some today)), effective_date := some (get_worker_hire_date s.pending today w), base_rate := if (none : Option ℚ).isSome then some b else if true then ew.base_rate else some b } := by
        have h2 := congrArg Prod.snd hcall
        simpa using h2.symm
      rw [hrr]
      exact hbase
  · intro t today dry ch wid wage bq stdr rl hhead hbase hrole hrlne hstd hover
    have hdet : detect_manual_override wage = Except.ok true :=
      detect_manual_override_true wage bq stdr rl hbase hrole hrlne hstd hover
    have hstep : processWage today dry (t, ch) wid = processWageRow today dry t ch wid wage := by
      unfold processWage
      dsimp only
      rw [hhead]
    rw [hstep]
    cases hcalc : calculate_correct_wage_rate t today wage.worker_id wage.role
        (get_worker_current_agency t wage.worker_id) none
        (if true then wage.base_rate else none) true with
    | error e =>
      rw [processWageRow_calc_error today dry t ch wid wage true e hdet hcalc]
      exact ⟨wage, hhead, hbase⟩
    | ok correct =>
      rw [processWageRow_calc_ok today dry t ch wid wage true correct hdet hcalc]
      have hpw : decide (wage.id = wid) = true :=
        head_filter_pred (fun x => decide (x.id = wid)) t.wage_rates wage hhead
      split
      · refine ⟨_, updateFirst_head_filter (fun x => decide (x.id = wid)) _ t.wage_rates
          wage hhead hpw, ?_⟩
        show (if wage.base_rate.isNone || !true then some correct.base_rate
            else wage.base_rate) = some bq
        rw [hbase]
        rfl
      · exact ⟨wage, hhead, hbase⟩

/-- Witness for C4 at the concrete input of the spec: base_rate 22.00 with role
general labor (standard 16.00) stays 22.00 through reconciliation while
agency, markup and effective date update. -/
theorem manual_override_preserved_witness :
    (22 : ℚ) > 16 ∧
    ∀ (s' : Session) (r : WageRate),
      ensure_worker_wage_rate
        ⟨⟨[⟨1, "w", none, true⟩], [⟨1, "w", some 22, some "general labor", some "A", some 0, some 369⟩], [⟨1, "w", 0, 9, 17, 30, some "A"⟩], [], []⟩,
         ⟨[⟨1, "w", none, true⟩], [⟨1, "w", some 22, some "general labor", some "A", some 0, some 369⟩], [⟨1, "w", 0, 9, 17, 30, some "A"⟩], [], []⟩⟩
        0 "w" (some "general labor") none none none = (s', Except.ok r) →
      r.base_rate = some 22 := by
  refine ⟨by norm_num, ?_⟩
  intro s' r hcall
  exact manual_override_preserved.1 _ 0 "w" (some "general labor") none none s' r
    ⟨1, "w", some 22, some "general labor", some "A", some 0, some 369⟩ 22 16
    "general labor" (by decide) rfl rfl (by decide) rfl (by norm_num) hcall


theorem filter_and_nil {α : Type} (p q : α → Bool) (l : List α)
    (h : l.filter p = []) : l.filter (fun x => p x && q x) = [] := by
  rw [List.filter_eq_nil_iff]
  intro x hx
  have hp := List.filter_eq_nil_iff.mp h x hx
  simp only [Bool.and_eq_true, not_and]
  intro hpx
  exact absurd hpx hp

/-- Every path of `popStep` counts the worker exactly once. -/
theorem popStep_processed (today : Date) (acc : Session × PopSummary) (row : WorkerInfo) :
    ((popStep today acc row).2).workers_processed = acc.2.workers_processed + 1 := by
  unfold popStep
  dsimp only
  split
  · split
    · split <;> rfl
    · rfl
  · split <;> rfl

theorem foldl_popStep_processed (today : Date) :
    ∀ (rows : List WorkerInfo) (acc : Session × PopSummary),
      ((rows.foldl (popStep today) acc).2).workers_processed =
        acc.2.workers_processed + rows.length := by
  intro rows
  induction rows with
  | nil => intro acc; simp
  | cons r rs ih =>
    intro acc
    rw [List.foldl_cons, ih, popStep_processed, List.length_cons]
    omega

/-- C7: when a worker has no timesheet entry with a non-null agency and no
WageRate row with a non-null agency, the reconcile call raises the
unresolvable-agency error (a ValueError in the source, the spec's
`UnresolvableAgencyError`) without touching the session; the batch catches
such per-worker failures, appends them to its error list, and keeps going —
its `workers_processed` count always equals the number of aggregated workers,
whatever errors occur. -/
theorem unresolvable_agency_error_handling :
    (∀ (s : Session) (today : Date) (w : String) (position : Option String)
        (eff : Option Date) (ov : Option ℚ),
      s.pending.timesheet_entries.filter
          (fun e => decide (e.worker_id = w) && e.agency.isSome) = [] →
      s.pending.wage_rates.filter
          (fun x => decide (x.worker_id = w) && x.agency.isSome) = [] →
      ensure_worker_wage_rate s today w position none eff ov =
        (s, Except.error ("Cannot determine agency for worker " ++ w))) ∧
    (∀ (s : Session) (sum : PopSummary) (today : Date) (row : WorkerInfo),
      s.pending.wage_rates.filter (fun x => decide (x.worker_id = row.worker_id)) = [] →
      strTruthy row.current_agency = false →
      s.pending.timesheet_entries.filter
          (fun e => decide (e.worker_id = row.worker_id) && e.agency.isSome) = [] →
      popStep today (s, sum) row =
        (s, { sum with workers_processed := sum.workers_processed + 1, errors := sum.errors ++ [popErrMsg row.worker_id ("Cannot determine agency for worker " ++ row.worker_id)] })) ∧
    (∀ (s : Session) (today : Date) (df : List DfRow),
      (populate_missing_wage_rates s today df).2.workers_processed =
        (worker_info df).length) := by
  have hcurnone : ∀ (t : Tables) (w : String),
      t.timesheet_entries.filter (fun e => decide (e.worker_id = w) && e.agency.isSome) = [] →
      t.wage_rates.filter (fun x => decide (x.worker_id = w) && x.agency.isSome) = [] →
      get_worker_current_agency t w = none := by
    intro t w hts hwr
    unfold get_worker_current_agency
    rw [hts, hwr]
    rfl
  have hensfail : ∀ (s : Session) (today : Date) (w : String) (position : Option String)
      (eff : Option Date) (ov : Option ℚ),
      s.pending.timesheet_entries.filter
          (fun e => decide (e.worker_id = w) && e.agency.isSome) = [] →
      s.pending.wage_rates.filter
          (fun x => decide (x.worker_id = w) && x.agency.isSome) = [] →
      ensure_worker_wage_rate s today w position none eff ov =
        (s, Except.error ("Cannot determine agency for worker " ++ w)) := by
    intro s today w position eff ov hts hwr
    have hres : (if strTruthy (none : Option String) then (none : Option String)
        else get_worker_current_agency s.pending w) = none := by
      have h0 : (if strTruthy (none : Option String) then (none : Option String)
          else get_worker_current_agency s.pending w) =
          get_worker_current_agency s.pending w := rfl
      rw [h0]
      exact hcurnone s.pending w hts hwr
    exact ensure_agency_error_case s today w position none eff ov hres
  refine ⟨hensfail, ?_, ?_⟩
  · intro s sum today row hwe hagf hts
    have hwr2 : s.pending.wage_rates.filter
        (fun x => decide (x.worker_id = row.worker_id) && x.agency.isSome) = [] :=
      filter_and_nil _ _ _ hwe
    have hres : (if strTruthy row.current_agency then row.current_agency
        else get_worker_current_agency s.pending row.worker_id) = none := by
      rw [if_neg (by rw [hagf]; exact Bool.false_ne_true)]
      exact hcurnone s.pending row.worker_id hts hwr2
    have hens := ensure_agency_error_case s today row.worker_id row.position
      row.current_agency none none hres
    unfold popStep
    dsimp only
    rw [show (s.pending.wage_rates.filter
        (fun x => decide (x.worker_id = row.worker_id))).head? = none from by rw [hwe]; rfl]
    dsimp only
    rw [hens]
  · intro s today df
    unfold populate_missing_wage_rates
    rw [foldl_popStep_processed]
    simp

/-- Witness for C7 at concrete inputs: on an empty database the reconcile call
for worker w returns the unresolvable-agency error and leaves the session
untouched, and a two-worker DataFrame where only w2 has an agency is processed
to completion (both workers counted). -/
theorem unresolvable_agency_error_handling_witness :
    ensure_worker_wage_rate ⟨⟨[], [], [], [], []⟩, ⟨[], [], [], [], []⟩⟩ 0 "w"
        (some "general labor") none none none =
      (⟨⟨[], [], [], [], []⟩, ⟨[], [], [], [], []⟩⟩,
       Except.error ("Cannot determine agency for worker " ++ "w")) ∧
    (populate_missing_wage_rates ⟨⟨[], [], [], [], []⟩, ⟨[], [], [], [], []⟩⟩ 0
        [⟨"w1", some "general labor", none, 0⟩, ⟨"w2", some "general labor", some "A", 0⟩]
      ).2.workers_processed =
      (worker_info [⟨"w1", some "general labor", none, 0⟩,
        ⟨"w2", some "general labor", some "A", 0⟩]).length := by
  constructor
  · exact unresolvable_agency_error_handling.1 ⟨⟨[], [], [], [], []⟩, ⟨[], [], [], [], []⟩⟩
      0 "w" (some "general labor") none none rfl rfl
  · exact unresolvable_agency_error_handling.2.2 ⟨⟨[], [], [], [], []⟩, ⟨[], [], [], [], []⟩⟩
      0 [⟨"w1", some "general labor", none, 0⟩, ⟨"w2", some "general labor", some "A", 0⟩]

/-! ## Further helper lemmas, toward the idempotence analysis -/

theorem strTruthy_some (o : Option String) (h : strTruthy o = true) :
    ∃ a, o = some a ∧ ¬(a = "") := by
  cases o with
  | none => simp [strTruthy] at h
  | some s => exact ⟨s, rfl, of_decide_eq_true h⟩

theorem strTruthy_of_ne (a : String) (h : ¬(a = "")) : strTruthy (some a) = true :=
  decide_eq_true h

theorem head_none_nil {α : Type} (l : List α) (h : l.head? = none) : l = [] := by
  cases l with
  | nil => rfl
  | cons x xs => simp at h

/-- A list containing an element satisfying the predicate has a head of its
filtered form, and that head is a member. -/
theorem head_filter_mem {α : Type} (p : α → Bool) (l : List α) (a : α)
    (hmem : a ∈ l) (hp : p a = true) :
    ∃ b, (l.filter p).head? = some b ∧ b ∈ l := by
  have hin : a ∈ l.filter p := List.mem_filter.mpr ⟨hmem, hp⟩
  cases hl : l.filter p with
  | nil => rw [hl] at hin; simp at hin
  | cons x xs =>
    refine ⟨x, rfl, ?_⟩
    have hxin : x ∈ l.filter p := by rw [hl]; exact List.mem_cons_self _ _
    exact (List.mem_filter.mp hxin).1

/-- Replacing the first match by itself is the identity. -/
theorem updateFirst_self {α : Type} (p : α → Bool) (a : α) :
    ∀ (l₁ : List α) (l₂ : List α), (∀ x ∈ l₁, p x = false) → p a = true →
      updateFirst p (fun _ => a) (l₁ ++ a :: l₂) = l₁ ++ a :: l₂ := by
  intro l₁
  induction l₁ with
  | nil =>
    intro l₂ _ ha
    simp [updateFirst, ha]
  | cons x xs ih =>
    intro l₂ h₁ ha
    have hx : p x = false := h₁ x (List.mem_cons_self _ _)
    have hrec := ih l₂ (fun z hz => h₁ z (List.mem_cons_of_mem _ hz)) ha
    show updateFirst p (fun _ => a) (x :: (xs ++ a :: l₂)) = x :: (xs ++ a :: l₂)
    simp only [updateFirst, hx]
    rw [if_neg (by simp), hrec]

/-- `ensure_worker_row` leaves a worker row for the id in the table. -/
theorem ensure_worker_row_mem (t : Tables) (w : String) :
    ∃ x, ((ensure_worker_row t w).workers.filter
      (fun y => decide (y.worker_id = w))).head? = some x := by
  unfold ensure_worker_row
  cases hx : (t.workers.filter (fun y => decide (y.worker_id = w))).head? with
  | some x => exact ⟨x, hx⟩
  | none =>
    have hnil : t.workers.filter (fun y => decide (y.worker_id = w)) = [] :=
      head_none_nil _ hx
    refine ⟨⟨freshId (t.workers.map (fun y => y.id)), w, none, true⟩, ?_⟩
    dsimp only
    rw [List.filter_append, hnil, List.nil_append]
    simp [List.filter_cons]

/-- When a worker row already exists, `ensure_worker_row` is the identity. -/
theorem ensure_worker_row_id (t : Tables) (w : String)
    (h : ∃ x, (t.workers.filter (fun y => decide (y.worker_id = w))).head? = some x) :
    ensure_worker_row t w = t := by
  obtain ⟨x, hx⟩ := h
  unfold ensure_worker_row
  rw [hx]

/-- The markup resolver reads only the agency tables. -/
theorem get_agency_markup_congr (t u : Tables) (today : Date) (name : String)
    (d : Option Date) (hA : u.agencies = t.agencies)
    (hM : u.agency_markups = t.agency_markups) :
    get_agency_markup_for_date u today name d = get_agency_markup_for_date t today name d := by
  unfold get_agency_markup_for_date
  rw [hA, hM]

/-- The hire date reads only the timesheet table. -/
theorem get_worker_hire_date_congr (t u : Tables) (today : Date) (w : String)
    (hT : u.timesheet_entries = t.timesheet_entries) :
    get_worker_hire_date u today w = get_worker_hire_date t today w := by
  unfold get_worker_hire_date
  rw [hT]

theorem normalize_position_ne_empty (position : Option String) :
    ¬(normalize_position position = "") := by
  rcases normalize_position_mem position with h | h <;> rw [h] <;> decide

theorem normalize_std_exists (position : Option String) :
    ∃ stdv, get_base_rate_for_position (normalize_position position) = some stdv := by
  rcases normalize_position_mem position with h | h <;> rw [h]
  · exact ⟨16, by decide⟩
  · exact ⟨18, by decide⟩

/-- The canonical labels are fixed points of normalization. -/
theorem normalize_canonical_fix (r : String)
    (h : r = "general labor" ∨ r = "forklift driver") :
    normalize_position (some r) = r := by
  rcases h with h | h <;> rw [h] <;> decide

/-- Without an override argument, a successful base-rate resolution is the
standard-rate lookup itself. -/
theorem base_rate_no_override (npos : String) (b : ℚ)
    (h : get_base_rate_with_override npos none = Except.ok b) :
    get_base_rate_for_position npos = some b := by
  have h2 : (match get_base_rate_for_position npos with
      | some r => Except.ok r
      | none => (Except.error "UnknownPositionError" : Except String ℚ)) = Except.ok b := h
  cases hx : get_base_rate_for_position npos with
  | none => rw [hx] at h2; simp at h2
  | some r =>
    rw [hx] at h2
    rw [Except.ok.inj h2]

/-- With an override argument, base-rate resolution returns the override. -/
theorem base_rate_some_override (npos : String) (v b : ℚ)
    (h : get_base_rate_with_override npos (some v) = Except.ok b) : b = v := by
  have h2 : (Except.ok v : Except String ℚ) = Except.ok b := h
  exact (Except.ok.inj h2).symm

/-- Override detection evaluated on a row with a non-null base rate and a
truthy role in the rate table. -/
theorem detect_manual_override_eval (ew : WageRate) (bq stdr : ℚ) (rl : String)
    (hbase : ew.base_rate = some bq) (hrole : ew.role = some rl) (hrlne : ¬(rl = ""))
    (hstd : get_base_rate_for_position rl = some stdr) :
    detect_manual_override ew = Except.ok (decide (|bq - stdr| > 1 / 100)) := by
  unfold detect_manual_override
  rw [hbase, hrole]
  show (if strTruthy (some rl) = true then (match get_base_rate_for_position rl with | none => Except.error "UnknownPositionError" | some standard_rate => Except.ok (decide (|bq - standard_rate| > 1 / 100))) else Except.ok false) = Except.ok (decide (|bq - stdr| > 1 / 100))
  rw [if_pos (strTruthy_of_ne rl hrlne), hstd]

/-- Inversion: a positive override detection pins down the row's base rate,
truthy role, standard rate and deviation. -/
theorem detect_manual_override_true_inv (ew : WageRate)
    (h : detect_manual_override ew = Except.ok true) :
    ∃ b0 std0, ew.base_rate = some b0 ∧ strTruthy ew.role = true ∧
      get_base_rate_for_position (ew.role.getD "") = some std0 ∧ |b0 - std0| > 1 / 100 := by
  unfold detect_manual_override at h
  cases hbase : ew.base_rate with
  | none => rw [hbase] at h; simp at h
  | some b0 =>
    rw [hbase] at h
    have h2 : (if strTruthy ew.role = true then (match get_base_rate_for_position (ew.role.getD "") with | none => Except.error "UnknownPositionError" | some standard_rate => Except.ok (decide (|b0 - standard_rate| > 1 / 100))) else (Except.ok false : Except String Bool)) = Except.ok true := h
    by_cases htr : strTruthy ew.role = true
    · rw [if_pos htr] at h2
      cases hstd : get_base_rate_for_position (ew.role.getD "") with
      | none => rw [hstd] at h2; simp at h2
      | some std0 =>
        rw [hstd] at h2
        refine ⟨b0, std0, rfl, htr, rfl, ?_⟩
        exact of_decide_eq_true (Except.ok.inj h2)
    · rw [if_neg htr] at h2
      simp at h2

/-- A structure update whose every field already holds is the identity. -/
theorem wage_update_self (u : WageRate) (rl ag : Option String) (mk2 : Option ℚ)
    (ef : Option Date) (br : Option ℚ)
    (h1 : rl = u.role) (h2 : ag = u.agency) (h3 : mk2 = u.markup)
    (h4 : ef = u.effective_date) (h5 : br = u.base_rate) :
    u = { u with role := rl, agency := ag, markup := mk2, effective_date := ef, base_rate := br } := by
  subst h1 h2 h3 h4 h5
  rfl

/-- Re-running the update path over a session whose first worker row is already
the reconciled row restores the session unchanged. -/
theorem ensure_session_restore (s : Session) (w : String) (U : WageRate)
    (l₁ l₂ : List WageRate) (s₁ : Session)
    (hW2 : s₁.pending.workers = (ensure_worker_row s.pending w).workers)
    (hnr : s₁.pending.wage_rates = l₁ ++ U :: l₂)
    (hl₁ : ∀ x ∈ l₁, decide (x.worker_id = w) = false)
    (hUw : decide (U.worker_id = w) = true)
    (hcp : s₁.committed = s₁.pending) :
    Session.commit ⟨s₁.committed, { ensure_worker_row s₁.pending w with wage_rates := updateFirst (fun x => decide (x.worker_id = w)) (fun _ => U) (ensure_worker_row s₁.pending w).wage_rates }⟩ = s₁ := by
  have hrowid : ensure_worker_row s₁.pending w = s₁.pending := by
    apply ensure_worker_row_id
    rw [hW2]
    exact ensure_worker_row_mem s.pending w
  have hQ : ({ ensure_worker_row s₁.pending w with wage_rates := updateFirst (fun x => decide (x.worker_id = w)) (fun _ => U) (ensure_worker_row s₁.pending w).wage_rates } : Tables) = s₁.pending := by
    rw [hrowid, hnr,
      updateFirst_self (fun x => decide (x.worker_id = w)) U l₁ l₂ hl₁ hUw, ← hnr]
  rw [hQ]
  show (⟨s₁.pending, s₁.pending⟩ : Session) = s₁
  nth_rewrite 1 [← hcp]
  rfl

/-- Running `ensure_worker_wage_rate` again right after an update-path success
returns the same session and row, provided the stored role's standard rate
(when the stored role was truthy) agrees with the normalized position's. -/
theorem ensure_second_run_update (s : Session) (today : Date) (w : String)
    (position agency_name : Option String) (eff : Option Date) (ov : Option ℚ)
    (a : String) (b : ℚ) (ew U : WageRate) (mo : Bool)
    (hres : (if strTruthy agency_name then agency_name
        else get_worker_current_agency s.pending w) = some a)
    (hae : ¬(a = ""))
    (hb : get_base_rate_with_override (normalize_position position) ov = Except.ok b)
    (hew : ((ensure_worker_row s.pending w).wage_rates.filter
        (fun x => decide (x.worker_id = w))).head? = some ew)
    (hmo : detect_manual_override ew = Except.ok mo)
    (hstd : strTruthy ew.role = true →
      get_base_rate_for_position (ew.role.getD "") =
        get_base_rate_for_position (normalize_position position))
    (hU : U = { ew with
      role := some (normalize_position position)
      agency := some a
      markup := some (get_agency_markup_for_date s.pending today a (some today))
      effective_date := some (get_worker_hire_date s.pending today w)
      base_rate := if ov.isSome then some b else if mo then ew.base_rate else some b })
    (s₁ : Session)
    (hs₁ : s₁ = Session.commit ⟨s.committed, { ensure_worker_row s.pending w with wage_rates := updateFirst (fun x => decide (x.worker_id = w)) (fun _ => U) (ensure_worker_row s.pending w).wage_rates }⟩) :
    ensure_worker_wage_rate s₁ today w position agency_name eff ov = (s₁, Except.ok U) := by
  have hframe := ensure_worker_row_frame s.pending w
  have hpw : decide (ew.worker_id = w) = true :=
    head_filter_pred (fun x => decide (x.worker_id = w))
      (ensure_worker_row s.pending w).wage_rates ew hew
  obtain ⟨l₁, l₂, hldec, hl₁, hpa, hupd⟩ := updateFirst_decomp
    (fun x => decide (x.worker_id = w)) (fun _ => U)
    (ensure_worker_row s.pending w).wage_rates ew hew
  have hpend : s₁.pending = { ensure_worker_row s.pending w with wage_rates := updateFirst (fun x => decide (x.worker_id = w)) (fun _ => U) (ensure_worker_row s.pending w).wage_rates } := congrArg Session.pending hs₁
  have hnr : s₁.pending.wage_rates = l₁ ++ U :: l₂ := by
    rw [hpend]
    exact hupd
  have hA2 : s₁.pending.agencies = s.pending.agencies := by
    rw [hpend]
    exact hframe.2.2.1
  have hM2 : s₁.pending.agency_markups = s.pending.agency_markups := by
    rw [hpend]
    exact hframe.2.2.2
  have hT2 : s₁.pending.timesheet_entries = s.pending.timesheet_entries := by
    rw [hpend]
    exact hframe.2.1
  have hW2 : s₁.pending.workers = (ensure_worker_row s.pending w).workers := by
    rw [hpend]
  have hcp : s₁.committed = s₁.pending := by
    rw [hs₁]
    rfl
  have hUrole : U.role = some (normalize_position position) := congrArg WageRate.role hU
  have hUag : U.agency = some a := congrArg WageRate.agency hU
  have hUmar : U.markup = some (get_agency_markup_for_date s.pending today a (some today)) :=
    congrArg WageRate.markup hU
  have hUeff : U.effective_date = some (get_worker_hire_date s.pending today w) :=
    congrArg WageRate.effective_date hU
  have hUbase : U.base_rate =
      (if ov.isSome then some b else if mo then ew.base_rate else some b) :=
    congrArg WageRate.base_rate hU
  have hUw : decide (U.worker_id = w) = true := by
    have h := congrArg WageRate.worker_id hU
    rw [h]
    exact hpw
  have hres2 : (if strTruthy agency_name then agency_name
      else get_worker_current_agency s₁.pending w) = some a := by
    by_cases hag : strTruthy agency_name = true
    · rw [if_pos hag] at hres ⊢
      exact hres
    · rw [if_neg hag] at hres ⊢
      unfold get_worker_current_agency at hres ⊢
      rw [hT2, hnr]
      cases hts : firstMaxBy (fun e => e.date) (s.pending.timesheet_entries.filter
          (fun e => decide (e.worker_id = w) && e.agency.isSome)) with
      | some recent =>
        rw [hts] at hres
        exact hres
      | none =>
        rw [hts] at hres
        have hfilt : (l₁ ++ U :: l₂).filter
            (fun x => decide (x.worker_id = w) && x.agency.isSome) =
            U :: l₂.filter (fun x => decide (x.worker_id = w) && x.agency.isSome) := by
          apply filter_middle
          · intro x hx
            have hxw := hl₁ x hx
            simp only at hxw
            simp [hxw]
          · have hUagsome : U.agency.isSome = true := by simp [hUag]
            simp [hUw, hUagsome]
        rw [hfilt]
        show U.agency = some a
        exact hUag
  have hrowid : ensure_worker_row s₁.pending w = s₁.pending := by
    apply ensure_worker_row_id
    rw [hW2]
    exact ensure_worker_row_mem s.pending w
  have hew2 : ((ensure_worker_row s₁.pending w).wage_rates.filter
      (fun x => decide (x.worker_id = w))).head? = some U := by
    rw [hrowid, hnr, filter_middle (fun x => decide (x.worker_id = w)) l₁ l₂ U hl₁ hUw]
    rfl
  have hm2 : get_agency_markup_for_date s₁.pending today a (some today) =
      get_agency_markup_for_date s.pending today a (some today) :=
    get_agency_markup_congr s.pending s₁.pending today a (some today) hA2 hM2
  have hh2 : get_worker_hire_date s₁.pending today w = get_worker_hire_date s.pending today w :=
    get_worker_hire_date_congr s.pending s₁.pending today w hT2
  have hnp : ¬(normalize_position position = "") := normalize_position_ne_empty position
  cases ov with
  | some v =>
    have hUb : U.base_rate = some b := hUbase.trans rfl
    obtain ⟨stdv, hstdv⟩ := normalize_std_exists position
    have hmo2 : detect_manual_override U = Except.ok (decide (|b - stdv| > 1 / 100)) :=
      detect_manual_override_eval U b stdv (normalize_position position) hUb hUrole hnp hstdv
    have hU2 : U = { U with role := some (normalize_position position), agency := some a, markup := some (get_agency_markup_for_date s₁.pending today a (some today)), effective_date := some (get_worker_hire_date s₁.pending today w), base_rate := if (some v : Option ℚ).isSome then some b else if decide (|b - stdv| > 1 / 100) then U.base_rate else some b } := by
      apply wage_update_self
      · exact hUrole.symm
      · exact hUag.symm
      · rw [hm2]
        exact hUmar.symm
      · rw [hh2]
        exact hUeff.symm
      · show some b = U.base_rate
        exact hUb.symm
    have key := ensure_update_case s₁ today w position agency_name eff (some v) a b U U
      (decide (|b - stdv| > 1 / 100)) hres2 hae hb hew2 hmo2 hU2
    rw [key, ensure_session_restore s w U l₁ l₂ s₁ hW2 hnr hl₁ hUw hcp]
  | none =>
    have hstdnp : get_base_rate_for_position (normalize_position position) = some b :=
      base_rate_no_override (normalize_position position) b hb
    have hUb : U.base_rate = (if mo then ew.base_rate else some b) := hUbase.trans rfl
    cases mo with
    | false =>
      have hUb2 : U.base_rate = some b := hUb.trans rfl
      have hd : decide (|b - b| > 1 / 100) = false := by
        apply decide_eq_false
        simp only [sub_self, abs_zero]
        norm_num
      have hmo2 : detect_manual_override U = Except.ok false := by
        rw [detect_manual_override_eval U b b (normalize_position position) hUb2 hUrole hnp
          hstdnp, hd]
      have hU2 : U = { U with role := some (normalize_position position), agency := some a, markup := some (get_agency_markup_for_date s₁.pending today a (some today)), effective_date := some (get_worker_hire_date s₁.pending today w), base_rate := if (none : Option ℚ).isSome then some b else if false then U.base_rate else some b } := by
        apply wage_update_self
        · exact hUrole.symm
        · exact hUag.symm
        · rw [hm2]
          exact hUmar.symm
        · rw [hh2]
          exact hUeff.symm
        · show some b = U.base_rate
          exact hUb2.symm
      have key := ensure_update_case s₁ today w position agency_name eff none a b U U
        false hres2 hae hb hew2 hmo2 hU2
      rw [key, ensure_session_restore s w U l₁ l₂ s₁ hW2 hnr hl₁ hUw hcp]
    | true =>
      obtain ⟨b0, std0, hewb, hewrole, hewstd, hover⟩ := detect_manual_override_true_inv ew hmo
      have hstd0 : get_base_rate_for_position (ew.role.getD "") = some b := by
        rw [hstd hewrole]
        exact hstdnp
      have hsame : std0 = b := by
        rw [hstd0] at hewstd
        exact (Option.some.inj hewstd).symm
      have hoverb : |b0 - b| > 1 / 100 := by
        rw [← hsame]
        exact hover
      have hUb2 : U.base_rate = some b0 := by
        rw [hUb]
        exact hewb
      have hmo2 : detect_manual_override U = Except.ok true := by
        rw [detect_manual_override_eval U b0 b (normalize_position position) hUb2 hUrole hnp
          hstdnp, decide_eq_true hoverb]
      have hU2 : U = { U with role := some (normalize_position position), agency := some a, markup := some (get_agency_markup_for_date s₁.pending today a (some today)), effective_date := some (get_worker_hire_date s₁.pending today w), base_rate := if (none : Option ℚ).isSome then some b else if true then U.base_rate else some b } := by
        apply wage_update_self
        · exact hUrole.symm
        · exact hUag.symm
        · rw [hm2]
          exact hUmar.symm
        · rw [hh2]
          exact hUeff.symm
        · show U.base_rate = U.base_rate
          rfl
      have key := ensure_update_case s₁ today w position agency_name eff none a b U U
        true hres2 hae hb hew2 hmo2 hU2
      rw [key, ensure_session_restore s w U l₁ l₂ s₁ hW2 hnr hl₁ hUw hcp]

/-- Running `ensure_worker_wage_rate` again right after a creation-path success
finds the created row as the single row for the worker and returns the same
session and row. -/
theorem ensure_second_run_create (s : Session) (today : Date) (w : String)
    (position agency_name : Option String) (eff : Option Date) (ov : Option ℚ)
    (a : String) (b : ℚ) (nw : WageRate)
    (hres : (if strTruthy agency_name then agency_name
        else get_worker_current_agency s.pending w) = some a)
    (hae : ¬(a = ""))
    (hb : get_base_rate_with_override (normalize_position position) ov = Except.ok b)
    (hew : ((ensure_worker_row s.pending w).wage_rates.filter
        (fun x => decide (x.worker_id = w))).head? = none)
    (hN : nw = ⟨freshId ((ensure_worker_row s.pending w).wage_rates.map (fun r => r.id)), w, some b, some (normalize_position position), some a, some (get_agency_markup_for_date s.pending today a (some today)), some (get_worker_hire_date s.pending today w)⟩)
    (s₁ : Session)
    (hs₁ : s₁ = Session.commit ⟨s.committed, { ensure_worker_row s.pending w with wage_rates := (ensure_worker_row s.pending w).wage_rates ++ [nw] }⟩) :
    ensure_worker_wage_rate s₁ today w position agency_name eff ov = (s₁, Except.ok nw) := by
  have hframe := ensure_worker_row_frame s.pending w
  have hnil : (ensure_worker_row s.pending w).wage_rates.filter
      (fun x => decide (x.worker_id = w)) = [] := head_none_nil _ hew
  have hpend : s₁.pending = { ensure_worker_row s.pending w with wage_rates := (ensure_worker_row s.pending w).wage_rates ++ [nw] } := congrArg Session.pending hs₁
  have hnr : s₁.pending.wage_rates = (ensure_worker_row s.pending w).wage_rates ++ [nw] := by
    rw [hpend]
  have hA2 : s₁.pending.agencies = s.pending.agencies := by
    rw [hpend]
    exact hframe.2.2.1
  have hM2 : s₁.pending.agency_markups = s.pending.agency_markups := by
    rw [hpend]
    exact hframe.2.2.2
  have hT2 : s₁.pending.timesheet_entries = s.pending.timesheet_entries := by
    rw [hpend]
    exact hframe.2.1
  have hW2 : s₁.pending.workers = (ensure_worker_row s.pending w).workers := by
    rw [hpend]
  have hcp : s₁.committed = s₁.pending := by
    rw [hs₁]
    rfl
  have hl₁ : ∀ x ∈ (ensure_worker_row s.pending w).wage_rates,
      decide (x.worker_id = w) = false := by
    intro x hx
    have h := List.filter_eq_nil.mp hnil x hx
    exact Bool.eq_false_iff.mpr h
  have hnrole : nw.role = some (normalize_position position) := congrArg WageRate.role hN
  have hnag : nw.agency = some a := congrArg WageRate.agency hN
  have hnmar : nw.markup = some (get_agency_markup_for_date s.pending today a (some today)) :=
    congrArg WageRate.markup hN
  have hneff : nw.effective_date = some (get_worker_hire_date s.pending today w) :=
    congrArg WageRate.effective_date hN
  have hnb : nw.base_rate = some b := congrArg WageRate.base_rate hN
  have hnww : decide (nw.worker_id = w) = true := by
    have h := congrArg WageRate.worker_id hN
    rw [h]
    exact decide_eq_true rfl
  have hres2 : (if strTruthy agency_name then agency_name
      else get_worker_current_agency s₁.pending w) = some a := by
    by_cases hag : strTruthy agency_name = true
    · rw [if_pos hag] at hres ⊢
      exact hres
    · rw [if_neg hag] at hres ⊢
      unfold get_worker_current_agency at hres ⊢
      rw [hT2, hnr]
      cases hts : firstMaxBy (fun e => e.date) (s.pending.timesheet_entries.filter
          (fun e => decide (e.worker_id = w) && e.agency.isSome)) with
      | some recent =>
        rw [hts] at hres
        exact hres
      | none =>
        rw [hts] at hres
        exfalso
        have hfe : s.pending.wage_rates.filter (fun x => decide (x.worker_id = w)) = [] := by
          rw [← hframe.1]
          exact hnil
        have hq : s.pending.wage_rates.filter
            (fun x => decide (x.worker_id = w) && x.agency.isSome) = [] :=
          filter_and_nil (fun (x : WageRate) => decide (x.worker_id = w))
            (fun (x : WageRate) => x.agency.isSome) _ hfe
        rw [hq] at hres
        simp at hres
  have hrowid : ensure_worker_row s₁.pending w = s₁.pending := by
    apply ensure_worker_row_id
    rw [hW2]
    exact ensure_worker_row_mem s.pending w
  have hew2 : ((ensure_worker_row s₁.pending w).wage_rates.filter
      (fun x => decide (x.worker_id = w))).head? = some nw := by
    rw [hrowid, hnr, List.filter_append, hnil, List.nil_append]
    simp [List.filter_cons, hnww]
  have hm2 : get_agency_markup_for_date s₁.pending today a (some today) =
      get_agency_markup_for_date s.pending today a (some today) :=
    get_agency_markup_congr s.pending s₁.pending today a (some today) hA2 hM2
  have hh2 : get_worker_hire_date s₁.pending today w = get_worker_hire_date s.pending today w :=
    get_worker_hire_date_congr s.pending s₁.pending today w hT2
  have hnp : ¬(normalize_position position = "") := normalize_position_ne_empty position
  obtain ⟨stdv, hstdv⟩ := normalize_std_exists position
  have hmo2 : detect_manual_override nw = Except.ok (decide (|b - stdv| > 1 / 100)) :=
    detect_manual_override_eval nw b stdv (normalize_position position) hnb hnrole hnp hstdv
  have hU2 : nw = { nw with role := some (normalize_position position), agency := some a, markup := some (get_agency_markup_for_date s₁.pending today a (some today)), effective_date := some (get_worker_hire_date s₁.pending today w), base_rate := if ov.isSome then some b else if decide (|b - stdv| > 1 / 100) then nw.base_rate else some b } := by
    apply wage_update_self
    · exact hnrole.symm
    · exact hnag.symm
    · rw [hm2]
      exact hnmar.symm
    · rw [hh2]
      exact hneff.symm
    · cases ov with
      | some v =>
        show some b = nw.base_rate
        exact hnb.symm
      | none =>
        show (if decide (|b - stdv| > 1 / 100) then nw.base_rate else some b) = nw.base_rate
        by_cases hd : decide (|b - stdv| > 1 / 100) = true
        · rw [if_pos hd]
        · rw [if_neg hd]
          exact hnb.symm
  have key := ensure_update_case s₁ today w position agency_name eff ov a b nw nw
    (decide (|b - stdv| > 1 / 100)) hres2 hae hb hew2 hmo2 hU2
  rw [key, ensure_session_restore s w nw (ensure_worker_row s.pending w).wage_rates [] s₁
    hW2 hnr hl₁ hnww hcp]

/-- A wage row already in the reconciled form is left untouched by the
restructure tool's per-row update, which only counts the worker. -/
theorem processWageRow_uptodate (today : Date) (dry : Bool) (t : Tables)
    (ch : RestructureChanges) (wid : Nat) (wage : WageRate)
    (h : rowUpToDate t today wage) :
    processWageRow today dry t ch wid wage =
      (t, { ch with workers_processed := ch.workers_processed + 1 }) := by
  obtain ⟨htr, hagw, heff, hrole, hbase, hmar⟩ := h
  obtain ⟨a, hca, hane⟩ := strTruthy_some _ htr
  obtain ⟨b, hb⟩ := Option.isSome_iff_exists.mp hbase
  have hrexists : ∃ r stdr, wage.role = some r ∧ ¬(r = "") ∧
      get_base_rate_for_position r = some stdr ∧ normalize_position (some r) = r := by
    rcases hrole with h1 | h1
    · exact ⟨"general labor", 16, h1, by decide, by decide, by decide⟩
    · exact ⟨"forklift driver", 18, h1, by decide, by decide, by decide⟩
  obtain ⟨r, stdr, hr, hrne, hstdr, hnfix⟩ := hrexists
  have hstr : strTruthy (some r) = true := strTruthy_of_ne r hrne
  rw [hca] at hmar
  simp only [Option.getD_some] at hmar
  have hdet := detect_manual_override_eval wage b stdr r hb hr hrne hstdr
  have hmzero : decide (|get_agency_markup_for_date t today a (some today) -
      get_agency_markup_for_date t today a (some today)| > (1 : ℚ) / 1000) = false := by
    apply decide_eq_false
    simp only [sub_self, abs_zero]
    norm_num
  have hcalcgen : ∀ (ovArg : Option ℚ) (bres : ℚ),
      get_base_rate_with_override r ovArg = Except.ok bres →
      calculate_correct_wage_rate t today wage.worker_id wage.role
        (get_worker_current_agency t wage.worker_id) none ovArg true =
        Except.ok ⟨bres, r, a, get_agency_markup_for_date t today a (some today),
          get_worker_hire_date t today wage.worker_id⟩ := by
    intro ovArg bres hov
    simp only [calculate_correct_wage_rate]
    rw [hca, hr, ite_self]
    dsimp only
    rw [if_neg hane, if_pos hstr, hnfix, hov]
  by_cases hd : decide (|b - stdr| > 1 / 100) = true
  · rw [hd] at hdet
    have hov : get_base_rate_with_override r (if true then wage.base_rate else none) =
        Except.ok b := by
      show get_base_rate_with_override r wage.base_rate = Except.ok b
      rw [hb]
      rfl
    have hkey := processWageRow_calc_ok today dry t ch wid wage true
      ⟨b, r, a, get_agency_markup_for_date t today a (some today),
        get_worker_hire_date t today wage.worker_id⟩ hdet
      (hcalcgen (if true then wage.base_rate else none) b hov)
    rw [hkey]
    have hnu : restructure_needs_update wage (get_worker_current_agency t wage.worker_id)
        (get_worker_hire_date t today wage.worker_id) true
        ⟨b, r, a, get_agency_markup_for_date t today a (some today),
          get_worker_hire_date t today wage.worker_id⟩ = false := by
      unfold restructure_needs_update
      rw [hr, hb, heff, hmar, hagw, hca]
      simp [hstr, hmzero]
    rw [hnu]
    simp
  · have hd2 : decide (|b - stdr| > 1 / 100) = false := Bool.eq_false_iff.mpr hd
    rw [hd2] at hdet
    have hov : get_base_rate_with_override r (if false then wage.base_rate else none) =
        Except.ok stdr := by
      show (match get_base_rate_for_position r with
        | some rr => Except.ok rr
        | none => (Except.error "UnknownPositionError" : Except String ℚ)) = Except.ok stdr
      rw [hstdr]
    have hkey := processWageRow_calc_ok today dry t ch wid wage false
      ⟨stdr, r, a, get_agency_markup_for_date t today a (some today),
        get_worker_hire_date t today wage.worker_id⟩ hdet
      (hcalcgen (if false then wage.base_rate else none) stdr hov)
    rw [hkey]
    have hnu : restructure_needs_update wage (get_worker_current_agency t wage.worker_id)
        (get_worker_hire_date t today wage.worker_id) false
        ⟨stdr, r, a, get_agency_markup_for_date t today a (some today),
          get_worker_hire_date t today wage.worker_id⟩ = false := by
      unfold restructure_needs_update
      rw [hr, hb, heff, hmar, hagw, hca]
      simp [hstr, hmzero, hd2]
      have hle : ¬(|b - stdr| > 1 / 100) := fun hgt => hd (decide_eq_true hgt)
      exact not_lt.mp hle
    rw [hnu]
    simp

/-- Folding the per-row pass over ids of rows that are all up to date leaves
the tables unchanged and only counts workers. -/
theorem foldl_processWage_uptodate (today : Date) (dry : Bool) (t : Tables)
    (hall : ∀ x ∈ t.wage_rates, rowUpToDate t today x) :
    ∀ (ids : List Nat) (ch : RestructureChanges),
      (∀ i ∈ ids, ∃ x ∈ t.wage_rates, x.id = i) →
      ids.foldl (processWage today dry) (t, ch) =
        (t, { ch with workers_processed := ch.workers_processed + ids.length }) := by
  intro ids
  induction ids with
  | nil =>
    intro ch _
    rfl
  | cons i is ih =>
    intro ch hmem
    rw [List.foldl_cons]
    obtain ⟨x, hx, hxi⟩ := hmem i (List.mem_cons_self _ _)
    obtain ⟨y, hy, hymem⟩ := head_filter_mem (fun rr => decide (rr.id = i)) t.wage_rates x hx
      (by simp [hxi])
    have hstep : processWage today dry (t, ch) i =
        (t, { ch with workers_processed := ch.workers_processed + 1 }) := by
      unfold processWage
      dsimp only
      rw [hy]
      exact processWageRow_uptodate today dry t ch i y (hall y hymem)
    rw [hstep, ih _ (fun j hj => hmem j (List.mem_cons_of_mem _ hj))]
    have harith : ({ ch with workers_processed := ch.workers_processed + 1 } : RestructureChanges).workers_processed + is.length = ch.workers_processed + (i :: is).length := by
      show ch.workers_processed + 1 + is.length = ch.workers_processed + (i :: is).length
      rw [List.length_cons]
      omega
    rw [harith]

/-- C2 counterexample: reconciliation is not idempotent as claimed. (i) On
`cexT2` the first `ensure_worker_wage_rate` call detects a manual override
against the stored forklift-driver standard and keeps base 16.005, but
normalizes the role to general labor; the second call re-evaluates the
override against the general-labor standard (deviation 0.005 ≤ 0.01), finds
none, and resets the base to 16.00 — the row differs after the second call.
(ii) On `cexT2b` the batch update path reports `entries_updated = 1` on every
run (the stale markup triggers `needs_update`, but the in-place update keeps
the old markup because the agency did not change), so the second call also
reports one change, not zero. -/
theorem reconcile_not_idempotent_cex :
    (ensure_worker_wage_rate
        (ensure_worker_wage_rate ⟨cexT2, cexT2⟩ 0 "w" (some "general labor") none none
          none).1
        0 "w" (some "general labor") none none none).1.pending.wage_rates ≠
      (ensure_worker_wage_rate ⟨cexT2, cexT2⟩ 0 "w" (some "general labor")
          none none none).1.pending.wage_rates ∧
    (update_wage_rates_with_business_rules
        (update_wage_rates_with_business_rules cexT2b 10 false ⟨0, 0, 0, 0, []⟩).1
        10 false ⟨0, 0, 0, 0, []⟩).2.entries_updated = 1 := by
  exact ⟨by decide, by decide⟩

/-- C2 (amended): (a) a second `ensure_worker_wage_rate` call right after a
successful one returns the same session and the same row — a no-op — provided
the standard rate of the stored role (when the first worker row has a truthy
role) agrees with the standard rate of the normalized requested position (the
counterexample shows the claim fails without this proviso); (b) the batch
update path (`update_wage_rates_with_business_rules`) run over tables whose
wage rows are all in the reconciled target form — in particular the state its
specification intends a first run to establish — changes nothing and reports
zero updates, zero creations and no errors, only counting workers. -/
theorem reconcile_second_call_no_op :
    (∀ (s : Session) (today : Date) (w : String) (position agency_name : Option String)
        (eff : Option Date) (ov : Option ℚ) (s₁ : Session) (r₁ : WageRate),
      (∀ ew, (s.pending.wage_rates.filter (fun x => decide (x.worker_id = w))).head? =
          some ew → strTruthy ew.role = true →
        get_base_rate_for_position (ew.role.getD "") =
          get_base_rate_for_position (normalize_position position)) →
      ensure_worker_wage_rate s today w position agency_name eff ov = (s₁, Except.ok r₁) →
      ensure_worker_wage_rate s₁ today w position agency_name eff ov = (s₁, Except.ok r₁)) ∧
    (∀ (t : Tables) (today : Date) (dry : Bool) (ch : RestructureChanges),
      (∀ x ∈ t.wage_rates, rowUpToDate t today x) →
      update_wage_rates_with_business_rules t today dry ch =
        (t, { ch with workers_processed := ch.workers_processed + t.wage_rates.length })) := by
  constructor
  · intro s today w position agency_name eff ov s₁ r₁ hstd hrun1
    cases hres : (if strTruthy agency_name then agency_name
        else get_worker_current_agency s.pending w) with
    | none =>
      rw [ensure_agency_error_case s today w position agency_name eff ov hres] at hrun1
      simp [Prod.ext_iff] at hrun1
    | some a =>
      by_cases hae : a = ""
      · rw [hae] at hres
        rw [ensure_agency_empty_case s today w position agency_name eff ov hres] at hrun1
        simp [Prod.ext_iff] at hrun1
      obtain ⟨b, hb⟩ := base_rate_with_override_ok position ov
      cases hew : ((ensure_worker_row s.pending w).wage_rates.filter
          (fun x => decide (x.worker_id = w))).head? with
      | some ew =>
        cases hmo : detect_manual_override ew with
        | error e =>
          rw [ensure_override_error_case s today w position agency_name eff ov a b ew e
            hres hae hb hew hmo] at hrun1
          simp [Prod.ext_iff] at hrun1
        | ok mo =>
          rw [ensure_update_case s today w position agency_name eff ov a b ew _ mo hres hae
            hb hew hmo rfl] at hrun1
          rw [Prod.mk.injEq] at hrun1
          obtain ⟨h1, h2⟩ := hrun1
          subst h1
          have hr := Except.ok.inj h2
          subst hr
          have hewP : (s.pending.wage_rates.filter
              (fun x => decide (x.worker_id = w))).head? = some ew := by
            rw [← (ensure_worker_row_frame s.pending w).1]
            exact hew
          exact ensure_second_run_update s today w position agency_name eff ov a b ew _ mo
            hres hae hb hew hmo (hstd ew hewP) rfl _ rfl
      | none =>
        rw [ensure_create_case s today w position agency_name eff ov a b _ hres hae hb hew
          rfl] at hrun1
        rw [Prod.mk.injEq] at hrun1
        obtain ⟨h1, h2⟩ := hrun1
        subst h1
        have hr := Except.ok.inj h2
        subst hr
        exact ensure_second_run_create s today w position agency_name eff ov a b _ hres hae
          hb hew rfl _ rfl
  · intro t today dry ch hall
    unfold update_wage_rates_with_business_rules
    have hmem : ∀ i ∈ t.wage_rates.map (fun x => x.id), ∃ x ∈ t.wage_rates, x.id = i := by
      intro i hi
      obtain ⟨x, hx, hxi⟩ := List.mem_map.mp hi
      exact ⟨x, hx, hxi⟩
    rw [foldl_processWage_uptodate today dry t hall (t.wage_rates.map (fun x => x.id)) ch
      hmem, List.length_map]

/-- Witness for C2 (amended) at concrete inputs: reconciling worker w in the
fresh database `exSingleT` produces `exSingleOut`, and a second reconcile call
on that state is a no-op returning the same session and row; the batch update
pass over the fully reconciled `exUpToDateT` leaves the tables unchanged and
reports zero updates. -/
theorem reconcile_second_call_no_op_witness :
    ensure_worker_wage_rate ⟨exSingleOut, exSingleOut⟩ 0 "w" (some "general labor")
        none none none = (⟨exSingleOut, exSingleOut⟩, Except.ok exSingleRow) ∧
    update_wage_rates_with_business_rules exUpToDateT 10 false ⟨0, 0, 0, 0, []⟩ =
      (exUpToDateT, ⟨0, 0, 0, 1, []⟩) := by
  constructor
  · exact reconcile_second_call_no_op.1 ⟨exSingleT, exSingleT⟩ 0 "w" (some "general labor")
      none none none ⟨exSingleOut, exSingleOut⟩ exSingleRow
      (by intro ew hhead htr; simp [exSingleT] at hhead) (by decide)
  · exact reconcile_second_call_no_op.2 exUpToDateT 10 false ⟨0, 0, 0, 0, []⟩
      (by intro x hx; simp [exUpToDateT] at hx; subst hx; unfold rowUpToDate; decide)

/-- The markup helper reads only the agency tables. -/
theorem get_markup_for_agency_congr (t u : Tables) (today : Date) (ag : Option String)
    (hA : u.agencies = t.agencies) (hM : u.agency_markups = t.agency_markups) :
    get_markup_for_agency u today ag = get_markup_for_agency t today ag := by
  unfold get_markup_for_agency
  cases ag with
  | none => rfl
  | some a => exact get_agency_markup_congr t u today a (some today) hA hM

/-- C9 counterexample: the claimed creation rule has an extra gate. On `cexT9`
no WageRate exists for the pair (w, A) and the uploaded row has a known
position, yet ingesting it creates no WageRate at all, because the row shares
its (worker_id, date, time_in) key with an existing timesheet entry and the
duplicate gate skips the entire row. -/
theorem upload_pair_insert_cex :
    (cexT9.wage_rates.filter (fun x =>
      decide (x.worker_id = "w") && decide (x.agency = some "A"))).head? = none ∧
    (upload ⟨cexT9, cexT9⟩ 0 [cexRow9]).pending.wage_rates = [] := by
  exact ⟨by decide, by decide⟩

/-- C9 (amended): per uploaded row, (a) existing WageRate rows always survive —
the wage table is extended by at most one appended row; (b) when the row does
not duplicate an existing timesheet entry on (worker_id, date, time_in), has a
known position, and no WageRate exists for the exact (worker_id, agency) pair,
a new WageRate row is appended carrying the normalized role, its standard base
rate, the row's agency, the agency's markup and the worker's first upload date
— so a worker moving to a second agency gains a second row while the first row
stays in place. -/
theorem upload_wage_keyed_by_pair :
    (∀ (today : Date) (fd : String → Date) (t : Tables) (r : UploadRow),
      (upload_process_row today fd t r).wage_rates = t.wage_rates ∨
      ∃ nw, (upload_process_row today fd t r).wage_rates = t.wage_rates ++ [nw]) ∧
    (∀ (today : Date) (fd : String → Date) (t : Tables) (r : UploadRow) (praw : String)
        (bq : ℚ),
      (t.timesheet_entries.filter (fun e =>
        decide (e.worker_id = r.worker_id) && decide (e.date = r.date)
        && decide (e.time_in = r.time_in))).head? = none →
      r.position = some praw →
      get_base_rate_for_position (normalize_position (some praw)) = some bq →
      (t.wage_rates.filter (fun x =>
        decide (x.worker_id = r.worker_id) && decide (x.agency = r.agency))).head? = none →
      (upload_process_row today fd t r).wage_rates =
        t.wage_rates ++ [⟨freshId (t.wage_rates.map (fun x => x.id)), r.worker_id, some bq,
          some (normalize_position (some praw)), r.agency,
          some (get_markup_for_agency t today r.agency), some (fd r.worker_id)⟩]) := by
  constructor
  · intro today fd t r
    simp only [upload_process_row]
    cases hdup : (t.timesheet_entries.filter (fun e =>
        decide (e.worker_id = r.worker_id) && decide (e.date = r.date)
        && decide (e.time_in = r.time_in))).head? with
    | some e =>
      left
      rfl
    | none =>
      dsimp only
      generalize hT2 : (⟨t.workers, t.wage_rates, t.timesheet_entries ++ [⟨freshId (t.timesheet_entries.map (fun e => e.id)), r.worker_id, r.date, r.time_in, r.time_out, r.lunch_minutes, r.agency⟩], t.agencies, t.agency_markups⟩ : Tables) = t1
      have hw1a : t1.wage_rates = t.wage_rates :=
        (congrArg Tables.wage_rates hT2).symm.trans rfl
      have hw1 : (ensure_worker_row t1 r.worker_id).wage_rates = t.wage_rates :=
        (ensure_worker_row_frame t1 r.worker_id).1.trans hw1a
      cases hA : ((ensure_worker_row t1 r.worker_id).wage_rates.filter (fun x =>
          decide (x.worker_id = r.worker_id) && decide (x.agency = r.agency))).head? with
      | some x =>
        left
        exact hw1
      | none =>
        cases hpos : r.position with
        | none =>
          left
          exact hw1
        | some praw =>
          dsimp only [Option.map]
          obtain ⟨stdv, hstdv⟩ := normalize_std_exists (some praw)
          rw [hstdv]
          dsimp only
          right
          rw [hw1]
          exact ⟨_, rfl⟩
  · intro today fd t r praw bq hdup hpos hstd hpair
    simp only [upload_process_row]
    rw [hdup]
    dsimp only
    generalize hT2 : (⟨t.workers, t.wage_rates, t.timesheet_entries ++ [⟨freshId (t.timesheet_entries.map (fun e => e.id)), r.worker_id, r.date, r.time_in, r.time_out, r.lunch_minutes, r.agency⟩], t.agencies, t.agency_markups⟩ : Tables) = t1
    have hw1a : t1.wage_rates = t.wage_rates :=
      (congrArg Tables.wage_rates hT2).symm.trans rfl
    have hw1 : (ensure_worker_row t1 r.worker_id).wage_rates = t.wage_rates :=
      (ensure_worker_row_frame t1 r.worker_id).1.trans hw1a
    have hag1 : (ensure_worker_row t1 r.worker_id).agencies = t.agencies :=
      (ensure_worker_row_frame t1 r.worker_id).2.2.1.trans
        ((congrArg Tables.agencies hT2).symm.trans rfl)
    have ham1 : (ensure_worker_row t1 r.worker_id).agency_markups = t.agency_markups :=
      (ensure_worker_row_frame t1 r.worker_id).2.2.2.trans
        ((congrArg Tables.agency_markups hT2).symm.trans rfl)
    have hA : ((ensure_worker_row t1 r.worker_id).wage_rates.filter (fun x =>
        decide (x.worker_id = r.worker_id) && decide (x.agency = r.agency))).head? = none := by
      rw [hw1]
      exact hpair
    rw [hpos]
    dsimp only [Option.map]
    rw [hA]
    dsimp only
    rw [hstd]
    dsimp only
    rw [hw1, get_markup_for_agency_congr t (ensure_worker_row t1 r.worker_id) today r.agency
      hag1 ham1]

/-- Witness for C9 (amended) at a concrete input: worker w, active under agency
B with one wage row, uploads a non-duplicate row under agency A with a known
position; the result appends the (w, A) wage row — standard rate 16, markup 0
(no agency table), effective date 1 — while the (w, B) row stays first. -/
theorem upload_wage_keyed_by_pair_witness :
    (upload_process_row 0 (fun _ => 1) exT9 exRow9).wage_rates =
      exT9.wage_rates ++ [⟨2, "w", some 16, some "general labor", some "A", some 0, some 1⟩] := by
  have h := upload_wage_keyed_by_pair.2 0 (fun _ => 1) exT9 exRow9 "general labor" 16
    (by decide) rfl (by decide) (by decide)
  exact h.trans (by decide)

/-- C3 (code bug): dry-run mode persists data. Starting from an empty committed
database, `update_all_worker_wage_rates` with `dry_run = True` over a one-row
DataFrame leaves the created Worker and WageRate rows in the committed state:
`ensure_worker_wage_rate` commits inside the per-worker loop, so the final
rollback has nothing left to undo — contradicting the docstring and the spec's
guarantee that dry-run never commits. The restructure tool's dry-run, by
contrast, leaves the committed state untouched even when an update is needed. -/
theorem dry_run_commits_anyway :
    (update_all_worker_wage_rates ⟨⟨[], [], [], [], []⟩, ⟨[], [], [], [], []⟩⟩ 0
        [⟨"w1", some "general labor", some "AgencyA", 0⟩] true).1.committed =
      ⟨[⟨1, "w1", none, true⟩],
       [⟨1, "w1", some 16, some "general labor", some "AgencyA", some 0, some 0⟩],
       [], [], []⟩ ∧
    (restructure ⟨cexT2b, cexT2b⟩ 10 true).1.committed = cexT2b := by
  exact ⟨by decide, by decide⟩

end WarehouseTracker
